import Mathlib

/-!
Verification of the `finger` window-automation system: a shallow embedding of
the visual hint decoder (`crates/finger-core/src/hint.rs`) and of the
orchestrator state machine (`crates/core/src/orchestrator.rs`, together with
the TUI-side command producers in `crates/tui/src/app.rs` and the Lua window
layer in `crates/core/src/lua_rt.rs` / `crates/finger-core/src/lua_rt.rs`),
with theorems settling the frozen claims about them.

Machine integers are modelled as `Nat`; the one place where `u32` overflow
could matter (the pixel index computation in `get_nibble`) takes an explicit
`% 2^32`. Fallible reads return `Option`; a potential out-of-bounds buffer
access is tracked as the `.error` case of an `Except`.
-/

set_option maxRecDepth 100000

namespace Finger

/-! ## Capture and the visual hint decoder (crates/finger-core/src/hint.rs) -/

/-- Raw screenshot pixel data (BGRA), `crates/core/src/types.rs`. Bytes are
`Nat` values below 256. -/
structure Capture where
  data : List Nat
  width : Nat
  height : Nat
  bytes_per_row : Nat

/-- Byte index of pixel `(x, y)`: `let idx = (y * capture.bytes_per_row +
x * 4) as usize` in `get_nibble`. The arithmetic is `u32` in the source,
hence the `% 2^32`. -/
def nibbleIdx (capture : Capture) (x y : Nat) : Nat :=
  (y * capture.bytes_per_row + x * 4) % 4294967296

/-- Extract the 7-bit value from one pixel:
`G[6:4] << 4 | R[6:5] << 2 | B[6:5]`, BGRA byte order (`get_nibble` in
hint.rs). The three byte reads are `Vec` indexing, modelled as
`Option`-returning list lookups so an out-of-bounds access is visible as
`none`. -/
def get_nibble (capture : Capture) (x y : Nat) : Option Nat :=
  match capture.data[nibbleIdx capture x y]?, capture.data[nibbleIdx capture x y + 1]?,
      capture.data[nibbleIdx capture x y + 2]? with
  | some b, some g, some r =>
      let r_bits := (r >>> 5) &&& 0x03
      let g_bits := (g >>> 4) &&& 0x07
      let b_bits := (b >>> 5) &&& 0x03
      some ((g_bits <<< 4) ||| (r_bits <<< 2) ||| b_bits)
  | _, _, _ => none

/-- One run of consecutive identical sampled values (`DecodedChar` in hint.rs). -/
structure DecodedChar where
  c : Nat
  n : Nat
deriving DecidableEq, Repr

/-- The 6-state scanner of `try_decode_row`. -/
inductive ScanState where
  | Start
  | M0
  | M1
  | Decode
  | End1
  | Done
deriving DecidableEq, Repr

/-- The mutable scan variables of `try_decode_row`. `decoded` is kept in
reverse order (most recent run first) so that mutating the source's
`decoded.last_mut()` is mutating the head. -/
structure RowScan where
  state : ScanState
  marker_width : Nat
  decoded : List DecodedChar
deriving DecidableEq, Repr

/-- One iteration of the `match state` in `try_decode_row`, fed the sampled
value `val`. -/
def stepPixel (s : RowScan) (val : Nat) : RowScan :=
  match s.state with
  | .Start =>
      if val = 0x00 then { s with state := .M0, marker_width := 1 } else s
  | .M0 =>
      if val = 0x00 then { s with marker_width := s.marker_width + 1 }
      else if val = 0x7F then { s with state := .M1, marker_width := s.marker_width + 1 }
      else { s with state := .Start }
  | .M1 =>
      if val = 0x7F then { s with marker_width := s.marker_width + 1 }
      else { s with state := .Decode, decoded := ⟨val, 1⟩ :: s.decoded }
  | .Decode =>
      if val = 0x7F then { s with state := .End1 }
      else
        match s.decoded with
        | [] => s
        | last :: rest =>
            if last.c = val then { s with decoded := ⟨last.c, last.n + 1⟩ :: rest }
            else { s with decoded := ⟨val, 1⟩ :: last :: rest }
  | .End1 =>
      if val = 0x00 then { s with state := .Done } else s
  | .Done => s

/-- The pixel loop of `try_decode_row`: `for x in (0..max_x)`, breaking when
`x * 4 + 3 >= bytes_per_row`. Entering `Done` breaks in the source; since
`stepPixel` is the identity on `Done`, running the remaining pixels is
equivalent. `fuel` counts the remaining iterations. -/
def scanRowGo (capture : Capture) (y : Nat) : Nat → Nat → RowScan → Except Unit RowScan
  | _, 0, s => .ok s
  | x, fuel + 1, s =>
      if capture.bytes_per_row ≤ x * 4 + 3 then .ok s
      else
        match get_nibble capture x y with
        | none => .error ()
        | some val => scanRowGo capture y (x + 1) fuel (stepPixel s val)

/-- Run the scanner over row `y`: `max_x = width.min(200)` pixels. -/
def scanRow (capture : Capture) (y : Nat) : Except Unit RowScan :=
  scanRowGo capture y 0 (min capture.width 200) ⟨.Start, 0, []⟩

/-- `((d.n as f64 * 2.0) / marker_width as f64).round() as u32` computed
exactly: round-half-away-from-zero of `(2*n)/mw` is `⌊(4*n + mw)/(2*mw)⌋`.
For the ranges reachable in a row scan (`n, mw ≤ 200`) the `f64` computation
is exact, so this `Nat` formula is faithful. -/
def charCount (n mw : Nat) : Nat := (4 * n + mw) / (2 * mw)

/-- `ch.is_ascii_graphic() || ch == ' '` for a 7-bit value. -/
def isPrintable (v : Nat) : Bool := (0x21 ≤ v && v ≤ 0x7E) || v = 0x20

/-- The normalization loop body of `try_decode_row`: a run renders as
`char_count.max(1)` copies of its character when printable, else nothing. -/
def renderRun (mw : Nat) (d : DecodedChar) : List Nat :=
  if isPrintable d.c then List.replicate (max (charCount d.n mw) 1) d.c else []

/-- `try_decode_row` (hint.rs lines 39-130). The output string is the list of
its ASCII codes. `.error` marks an out-of-bounds pixel read (a panic in the
source); `.ok none` is the source's `None`. -/
def try_decode_row (capture : Capture) (y : Nat) : Except Unit (Option (List Nat)) :=
  match scanRow capture y with
  | .error e => .error e
  | .ok r =>
      if r.state ≠ ScanState.Done ∨ r.decoded = [] ∨ r.marker_width = 0 then .ok none
      else
        let result := (r.decoded.reverse).flatMap (renderRun r.marker_width)
        .ok (if result = [] then none else some result)

/-- The row offsets probed by `decode_hint_v2`:
`(0..height.min(60)).step_by(3)`. -/
def hintRows (capture : Capture) : List Nat :=
  (List.range (min capture.height 60)).filter (fun y => y % 3 = 0)

/-- Row-trying loop of `decode_hint_v2`: first successful row wins. -/
def decodeHintGo (capture : Capture) : List Nat → Except Unit (Option (List Nat))
  | [] => .ok none
  | y :: ys =>
      match try_decode_row capture y with
      | .error e => .error e
      | .ok (some s) => .ok (some s)
      | .ok none => decodeHintGo capture ys

/-- `decode_hint_v2` (hint.rs lines 29-37). -/
def decode_hint_v2 (capture : Capture) : Except Unit (Option (List Nat)) :=
  decodeHintGo capture (hintRows capture)

/-- Build one BGRA pixel whose sampled 7-bit value is `v` (`v < 128`):
`B = (v&3)<<5, G = ((v>>4)&7)<<4, R = ((v>>2)&3)<<5, A = 255`. -/
def px (v : Nat) : List Nat :=
  [(v &&& 3) <<< 5, ((v >>> 4) &&& 7) <<< 4, ((v >>> 2) &&& 3) <<< 5, 255]

/-- The synthetic round-trip row of the spec: `0x00×5, 0x7F×5, 'A'×10,
0x7F×5, 0x00×5` (value 65 is printable). One row, 30 pixels. -/
def roundTripCapture : Capture :=
  { data := (List.replicate 5 0 ++ List.replicate 5 0x7F ++ List.replicate 10 65
      ++ List.replicate 5 0x7F ++ List.replicate 5 0).flatMap px
    width := 30
    height := 1
    bytes_per_row := 120 }

/-- An all-zero 8-pixel row. -/
def allZeroCapture : Capture :=
  { data := List.replicate 32 0, width := 8, height := 1, bytes_per_row := 32 }

/-- A row whose data run is cut off by end-of-row: `0x00×5, 0x7F×5, 'A'×10`
and then the row ends, with no trailing separator or end marker. -/
def truncatedCapture : Capture :=
  { data := (List.replicate 5 0 ++ List.replicate 5 0x7F
      ++ List.replicate 10 65).flatMap px
    width := 20
    height := 1
    bytes_per_row := 80 }

/-! ## Hint decoder lemmas -/

/-- The `f64` rounding in the normalization step really is
round-half-away-from-zero of the exact rational `2*n / mw`. -/
theorem charCount_eq_round (n mw : Nat) (h : 0 < mw) :
    (charCount n mw : ℤ) = round ((2 * n : ℚ) / (mw : ℚ)) := by
  have hmw : (mw : ℚ) ≠ 0 := Nat.cast_ne_zero.mpr h.ne'
  have key : (2 * n : ℚ) / (mw : ℚ) + 1 / 2 = ((4 * n + mw : ℕ) : ℚ) / ((2 * mw : ℕ) : ℚ) := by
    push_cast
    field_simp
    ring
  rw [round_eq, key, Rat.floor_natCast_div_natCast]
  rfl

/-- When the final guard of `try_decode_row` passes, the output is the
normalized rendering of the accumulated runs. -/
theorem try_decode_row_normalizes (capture : Capture) (y : Nat) (r : RowScan)
    (hscan : scanRow capture y = .ok r) (hdone : r.state = ScanState.Done)
    (hne : r.decoded ≠ []) (hmw : r.marker_width ≠ 0) :
    try_decode_row capture y = .ok
      (let result := (r.decoded.reverse).flatMap (fun d =>
          if isPrintable d.c then List.replicate (max (charCount d.n r.marker_width) 1) d.c
          else []);
       if result = [] then none else some result) := by
  have hguard : ¬ (r.state ≠ ScanState.Done ∨ r.decoded = [] ∨ r.marker_width = 0) := by
    push_neg
    exact ⟨hdone, hne, hmw⟩
  simp only [try_decode_row, hscan]
  rw [if_neg hguard]
  rfl

/-- When the scan ends outside `Done`, with no data, or with a zero marker
width, `try_decode_row` gives up. -/
theorem try_decode_row_fails (capture : Capture) (y : Nat) (r : RowScan)
    (hscan : scanRow capture y = .ok r)
    (h : r.state ≠ ScanState.Done ∨ r.decoded = [] ∨ r.marker_width = 0) :
    try_decode_row capture y = .ok none := by
  simp only [try_decode_row, hscan]
  rw [if_pos h]

/-- A pixel read succeeds when its last byte is in bounds. -/
theorem get_nibble_isSome (c : Capture) (x y : Nat)
    (h : nibbleIdx c x y + 2 < c.data.length) :
    ∃ v, get_nibble c x y = some v := by
  have h0 : nibbleIdx c x y < c.data.length := by omega
  have h1 : nibbleIdx c x y + 1 < c.data.length := by omega
  unfold get_nibble
  rw [List.getElem?_eq_getElem h0, List.getElem?_eq_getElem h1, List.getElem?_eq_getElem h]
  exact ⟨_, rfl⟩

/-- The scan loop never reads out of bounds when every in-guard pixel of the
row is within the buffer. -/
theorem scanRowGo_ok (c : Capture) (y : Nat)
    (hy : ∀ x, x * 4 + 3 < c.bytes_per_row → nibbleIdx c x y + 2 < c.data.length) :
    ∀ fuel x s, ∃ r, scanRowGo c y x fuel s = .ok r := by
  intro fuel
  induction fuel with
  | zero => exact fun x s => ⟨s, rfl⟩
  | succ fuel ih =>
      intro x s
      by_cases hguard : c.bytes_per_row ≤ x * 4 + 3
      · exact ⟨s, by simp [scanRowGo, hguard]⟩
      · obtain ⟨v, hv⟩ := get_nibble_isSome c x y (hy x (by omega))
        obtain ⟨r, hr⟩ := ih (x + 1) (stepPixel s v)
        exact ⟨r, by simp [scanRowGo, hguard, hv, hr]⟩

/-- Rows entirely inside the buffer scan without an out-of-bounds access. -/
theorem scanRow_ok (c : Capture) (y : Nat)
    (h : (y + 1) * c.bytes_per_row ≤ c.data.length) :
    ∃ r, scanRow c y = .ok r := by
  refine scanRowGo_ok c y (fun x hx => ?_) (min c.width 200) 0 ⟨.Start, 0, []⟩
  calc nibbleIdx c x y + 2
      ≤ y * c.bytes_per_row + x * 4 + 2 :=
        Nat.add_le_add_right (Nat.mod_le _ _) 2
    _ < y * c.bytes_per_row + c.bytes_per_row := by omega
    _ = (y + 1) * c.bytes_per_row := by ring
    _ ≤ c.data.length := h

/-- `try_decode_row` returns a value (no out-of-bounds access) for rows that
fit in the buffer. -/
theorem try_decode_row_ok (c : Capture) (y : Nat)
    (h : (y + 1) * c.bytes_per_row ≤ c.data.length) :
    ∃ r, try_decode_row c y = .ok r := by
  obtain ⟨r, hr⟩ := scanRow_ok c y h
  by_cases hg : r.state ≠ ScanState.Done ∨ r.decoded = [] ∨ r.marker_width = 0
  · exact ⟨none, by simp only [try_decode_row, hr]; rw [if_pos hg]⟩
  · exact ⟨_, by simp only [try_decode_row, hr]; rw [if_neg hg]⟩

/-- The row-probing loop returns a value when every probed row fits. -/
theorem decodeHintGo_ok (c : Capture) :
    ∀ ys : List Nat, (∀ y ∈ ys, (y + 1) * c.bytes_per_row ≤ c.data.length) →
    ∃ r, decodeHintGo c ys = .ok r := by
  intro ys
  induction ys with
  | nil => exact fun _ => ⟨none, rfl⟩
  | cons y ys ih =>
      intro h
      obtain ⟨r, hr⟩ := try_decode_row_ok c y (h y (List.mem_cons_self y ys))
      obtain ⟨rs, hrs⟩ := ih (fun z hz => h z (List.mem_cons_of_mem y hz))
      match r with
      | some s => exact ⟨some s, by simp [decodeHintGo, hr]⟩
      | none => exact ⟨rs, by simp [decodeHintGo, hr, hrs]⟩

/-! ## Claim theorems: visual hint decoder -/

/-- C1 counterexample: decoding the spec's synthetic row
`0x00×5, 0x7F×5, 'A'×10, 0x7F×5, 0x00×5` yields the character repeated
twice, not `round(10*2/5) = 4` times, because the code accumulates
`marker_width` across both the `0x00` run and the `0x7F` separator run
(5 + 5 = 10), not across the leading `0x00` run alone. -/
theorem hint_roundtrip_counterexample :
    try_decode_row roundTripCapture 0 = .ok (some [65, 65]) ∧
    decode_hint_v2 roundTripCapture = .ok (some [65, 65]) ∧
    [65, 65] ≠ List.replicate 4 65 :=
  ⟨rfl, rfl, by decide⟩

/-- C1 (amended): every accumulated data run of `n` same-value pixels emits
`round(n * 2 / marker_width)` copies (minimum 1) of its character where
`marker_width` is the combined pixel-count of the leading `0x00` run and the
`0x7F` separator run; on the synthetic row that count is 10, so the data run
of 10 pixels emits `round(10*2/10) = 2` copies. -/
theorem hint_roundtrip_normalization :
    (∀ (capture : Capture) (y : Nat) (r : RowScan),
        scanRow capture y = .ok r → r.state = ScanState.Done →
        r.decoded ≠ [] → r.marker_width ≠ 0 →
        try_decode_row capture y = .ok
          (let result := (r.decoded.reverse).flatMap (fun d =>
              if isPrintable d.c then
                List.replicate (max (charCount d.n r.marker_width) 1) d.c
              else []);
           if result = [] then none else some result)) ∧
    (∀ n mw : Nat, 0 < mw → (charCount n mw : ℤ) = round ((2 * n : ℚ) / (mw : ℚ))) ∧
    scanRow roundTripCapture 0 = .ok ⟨ScanState.Done, 10, [⟨65, 10⟩]⟩ ∧
    try_decode_row roundTripCapture 0 = .ok (some (List.replicate 2 65)) :=
  ⟨try_decode_row_normalizes, charCount_eq_round, rfl, rfl⟩

/-- Witness for C1 (amended): the general normalization statement applied to
the synthetic round-trip row. -/
theorem hint_roundtrip_normalization_witness :
    try_decode_row roundTripCapture 0 = .ok
      (let result := (([⟨65, 10⟩] : List DecodedChar).reverse).flatMap (fun d =>
          if isPrintable d.c then List.replicate (max (charCount d.n 10) 1) d.c
          else []);
       if result = [] then none else some result) :=
  hint_roundtrip_normalization.1 roundTripCapture 0 ⟨ScanState.Done, 10, [⟨65, 10⟩]⟩
    rfl rfl (by decide) (by decide)

/-- C9: a row decode returns none whenever the scanner does not reach `Done`,
or no data run was accumulated, or the marker run length is zero; in
particular the all-zero buffer and the buffer whose data run is cut off by
end-of-row decode to none. -/
theorem hint_decoder_failure_cases :
    (∀ (capture : Capture) (y : Nat) (r : RowScan),
        scanRow capture y = .ok r →
        (r.state ≠ ScanState.Done ∨ r.decoded = [] ∨ r.marker_width = 0) →
        try_decode_row capture y = .ok none) ∧
    decode_hint_v2 allZeroCapture = .ok none ∧
    decode_hint_v2 truncatedCapture = .ok none :=
  ⟨try_decode_row_fails, rfl, rfl⟩

/-- Witness for C9: the failure rule applied to the all-zero row, whose scan
ends in the `M0` state. -/
theorem hint_decoder_failure_cases_witness :
    try_decode_row allZeroCapture 0 = .ok none :=
  hint_decoder_failure_cases.1 allZeroCapture 0 ⟨ScanState.M0, 8, []⟩ rfl
    (by decide)

/-- C10: for every capture whose buffer holds `height * bytes_per_row` bytes,
`decode_hint_v2` performs no out-of-bounds access (it returns a value, never
the out-of-bounds marker), and it is deterministic: equal captures give equal
results. -/
theorem hint_decoder_total :
    (∀ c : Capture, c.height * c.bytes_per_row ≤ c.data.length →
        ∃ r, decode_hint_v2 c = .ok r) ∧
    (∀ c₁ c₂ : Capture, c₁ = c₂ → decode_hint_v2 c₁ = decode_hint_v2 c₂) := by
  constructor
  · intro c hc
    refine decodeHintGo_ok c (hintRows c) (fun y hy => ?_)
    have hmem : y ∈ List.range (min c.height 60) := (List.mem_filter.mp hy).1
    have hlt : y < c.height := lt_of_lt_of_le (List.mem_range.mp hmem) (min_le_left _ _)
    calc (y + 1) * c.bytes_per_row
        ≤ c.height * c.bytes_per_row := Nat.mul_le_mul_right _ hlt
      _ ≤ c.data.length := hc
  · intro c₁ c₂ h
    rw [h]

/-- Witness for C10: the totality statement applied to the all-zero capture
(1 row of 32 bytes, buffer length 32). -/
theorem hint_decoder_total_witness :
    ∃ r, decode_hint_v2 allZeroCapture = .ok r :=
  hint_decoder_total.1 allZeroCapture (by simp [allZeroCapture])

/-! ## Orchestrator data model (crates/core/src/types.rs)

`OrchestratorState`'s declaration lives in the crate's `types.rs`, whose
shipped copy predates the orchestrator; its three variants are fixed by the
`match` arms in `orchestrator.rs` and `tui/src/app.rs`, and likewise the
`StartStop` and `Restart` variants of `Command`. -/

/-- Global run state: `Stopped | Running | Stopping`. -/
inductive OrchestratorState where
  | Stopped
  | Running
  | Stopping
deriving DecidableEq, Repr

/-- One bot instance bound to a specific window (`types.rs`). `WindowId` is a
`u64`, modelled as `Nat`. -/
structure Instance where
  id : String
  window_id : Nat
  window_title : String
  status : String
  error : Option String
deriving DecidableEq, Repr

/-- `Instance::new`: the id is `format!("{}-{}", bot_name, window_id)`. -/
def Instance.new (bot_name : String) (window_id : Nat) (window_title : String) : Instance :=
  { id := bot_name ++ "-" ++ toString window_id
    window_id := window_id
    window_title := window_title
    status := ""
    error := none }

/-- One discovered bot script and its runtime state (`types.rs`). -/
structure BotEntry where
  name : String
  window_pattern : String
  description : String
  enabled : Bool
  instances : List Instance
  error : Option String
  script_path : String
deriving DecidableEq, Repr

/-- Command from TUI to orchestrator. -/
inductive Command where
  | Toggle (idx : Nat)
  | StartStop
  | Restart (idx : Nat)
  | Quit
deriving DecidableEq, Repr

/-- A live `LuaBot` as the orchestrator sees it: `aid` identifies the
underlying Lua VM (`LuaBot::new` creates a fresh one), `active` is the
shared `Rc<Cell<bool>>` flag of `crates/core/src/lua_rt.rs`. `LuaBot::new`
initialises it to `false` and `start()` runs before any `set_active(true)`. -/
structure Agent where
  aid : Nat
  active : Bool
deriving DecidableEq, Repr

/-! ### Association-list model of `HashMap<String, _>`

`bots` and `cooldowns` are `HashMap`s keyed by instance id. `alInsert`
replaces the value when the key is present and appends otherwise, `alErase`
is `HashMap::remove`, `alFind` is `get`. -/

def alFind {β : Type} : List (String × β) → String → Option β
  | [], _ => none
  | (k, v) :: rest, key => if k = key then some v else alFind rest key

def alErase {β : Type} (m : List (String × β)) (key : String) : List (String × β) :=
  m.filter (fun kv => kv.1 != key)

def alInsert {β : Type} (m : List (String × β)) (key : String) (v : β) :
    List (String × β) :=
  if (alFind m key).isSome then
    m.map (fun kv => if kv.1 = key then (key, v) else kv)
  else m ++ [(key, v)]

/-- The orchestrator thread's whole state: the shared `entries` registry and
run-state cell, its private `bots` and `cooldowns` tables, a counter
allocating fresh Lua VMs, the accumulated list of `stop()`ed VM ids (each
`b.stop().ok()` site appends), and the current time in ms. -/
structure Orch where
  entries : List BotEntry
  orch_state : OrchestratorState
  bots : List (String × Agent)
  cooldowns : List (String × Nat)
  next_aid : Nat
  stop_log : List Nat
  now : Nat
deriving DecidableEq, Repr

/-- Platform snapshot: `get_instances(pattern)` as a pure function of the
pattern at the moment a command is handled. -/
def Plat : Type := String → List (Nat × String)

/-! ## Command handling (crates/core/src/orchestrator.rs `process_commands`) -/

/-- `if let Some(mut b) = bots.remove(&id) { b.stop().ok(); }` -/
def stopAndRemove (s : Orch) (id : String) : Orch :=
  match alFind s.bots id with
  | some a => { s with bots := alErase s.bots id, stop_log := s.stop_log ++ [a.aid] }
  | none => s

/-- `LuaBot::new(...)` followed by `bots.insert(id, bot)`: always succeeds in
the model (instantiation errors are the spec's separately-acknowledged
failure mode (b) and out of scope here); the new VM starts inactive. -/
def createAgent (s : Orch) (id : String) : Orch :=
  { s with bots := alInsert s.bots id ⟨s.next_aid, false⟩, next_aid := s.next_aid + 1 }

/-- `wins.iter().any(|(w, _)| *w == i.window_id)`: the instance's window is
still alive in the snapshot. -/
def aliveIn (wins : List (Nat × String)) (i : Instance) : Bool :=
  wins.any (fun w => w.1 == i.window_id)

/-- The instances the `retain` of `Command::Toggle` keeps. -/
def keptInstances (plat : Plat) (e : BotEntry) : List Instance :=
  e.instances.filter (fun i => aliveIn (plat e.window_pattern) i)

/-- The instances the `retain` drops (dead windows). -/
def deadInstances (plat : Plat) (e : BotEntry) : List Instance :=
  e.instances.filter (fun i => !(aliveIn (plat e.window_pattern) i))

/-- Dropping one dead instance: stop and remove its bot, clear its cooldown. -/
def dropInstance (st : Orch) (i : Instance) : Orch :=
  let st := stopAndRemove st i.id
  { st with cooldowns := alErase st.cooldowns i.id }

/-- The `for (wid, title) in &wins` discovery loop: append a fresh `Instance`
for every window id not yet represented. -/
def discoverNew (name : String) (wins : List (Nat × String)) (insts : List Instance) :
    List Instance :=
  wins.foldl (fun acc w =>
    if acc.any (fun i => i.window_id == w.1) then acc
    else acc ++ [Instance.new name w.1 w.2]) insts

/-- The new value of one entry after the rescan: kept instances plus newly
discovered windows, in discovery order. -/
def reconEntry (plat : Plat) (e : BotEntry) : BotEntry :=
  { e with instances := discoverNew e.name (plat e.window_pattern) (keptInstances plat e) }

/-- The rescan inside `Command::Toggle` for one entry: retain instances whose
window is still alive — stopping the bot and clearing the cooldown of each
dead one — then append a fresh `Instance` for every window not yet
represented. The source's `retain` with side effects is modelled as a filter
plus removals over the complement (the side effects never feed back into the
aliveness test). -/
def reconcileEntry (plat : Plat) (acc : Orch × List BotEntry) (e : BotEntry) :
    Orch × List BotEntry :=
  ((deadInstances plat e).foldl dropInstance acc.1, acc.2 ++ [reconEntry plat e])

/-- The full `for entry in entries.iter_mut()` rescan of `Command::Toggle`. -/
def reconcileAll (plat : Plat) (s : Orch) : Orch :=
  let r := s.entries.foldl (reconcileEntry plat) ({ s with entries := [] }, [])
  { r.1 with entries := r.2 }

/-- Flip `entries[idx].enabled` if it exists: the TUI side of a Toggle
(`tui/src/app.rs toggle_selected` runs before the command is sent). -/
def flipEnabled (idx : Nat) : List BotEntry → List BotEntry
  | [] => []
  | e :: rest =>
      match idx with
      | 0 => { e with enabled := !e.enabled } :: rest
      | n + 1 => e :: flipEnabled n rest

/-- After the rescan, the per-entry effect of `Command::Toggle`: create (or
`reset()`) agents for an entry enabled while `Running`, stop and remove the
agents and cooldowns of a disabled entry. -/
def toggleApply (idx : Nat) (s : Orch) : Orch :=
  match s.entries[idx]? with
  | none => s
  | some entry =>
      if entry.enabled && s.orch_state == OrchestratorState.Running then
        entry.instances.foldl (fun st i =>
          if (alFind st.bots i.id).isSome then st  -- reset(): same agent kept
          else createAgent st i.id) s
      else if !entry.enabled then
        entry.instances.foldl dropInstance s
      else s

/-- `Command::Toggle(idx)`: the TUI has already flipped `enabled`; the
orchestrator rescans windows for every entry, then applies the per-entry
effect to the targeted entry. -/
def toggleCmd (plat : Plat) (idx : Nat) (s : Orch) : Orch :=
  toggleApply idx (reconcileAll plat { s with entries := flipEnabled idx s.entries })

/-- The `Running` arm of `Command::StartStop`: create a bot for every
instance of every enabled entry that lacks one. -/
def startRunning (s : Orch) : Orch :=
  s.entries.foldl (fun st e =>
    if !e.enabled then st
    else e.instances.foldl (fun st2 i =>
      if (alFind st2.bots i.id).isSome then st2
      else createAgent st2 i.id) st) s

/-- `Command::StartStop`: the TUI flips the run-state first
(`Running → Stopping`, `Stopped → Running`; in `Stopping` it sends nothing),
then the orchestrator, seeing `Running`, runs the creation loop; seeing
`Stopping` it only logs. -/
def startStopCmd (s : Orch) : Orch :=
  match s.orch_state with
  | .Stopping => s
  | .Running => { s with orch_state := .Stopping }
  | .Stopped => startRunning { s with orch_state := .Running }

/-- `Command::Restart(idx)`: only when `Running` and the entry is enabled;
stop and recreate the agent of every instance of the entry, clearing its
cooldown. -/
def restartCmd (idx : Nat) (s : Orch) : Orch :=
  if s.orch_state ≠ OrchestratorState.Running then s
  else
    match s.entries[idx]? with
    | none => s
    | some entry =>
        if !entry.enabled then s
        else entry.instances.foldl (fun st i => createAgent (dropInstance st i) i.id) s

/-- Stop every live bot and clear all state: the body of both the `Quit` arm
of `process_commands` and the `Stopping` teardown of the main loop. -/
def stopAllBots (s : Orch) : Orch :=
  { s with bots := []
           stop_log := s.stop_log ++ s.bots.map (fun kv => kv.2.aid)
           cooldowns := []
           orch_state := .Stopped }

/-- One received command together with the platform's window snapshot at the
moment it is handled. -/
structure Event where
  cmd : Command
  plat : Plat

/-- Handle one drained command. The `Bool` is `process_commands`' return:
`false` on `Quit`. -/
def applyEvent (s : Orch) (ev : Event) : Orch × Bool :=
  match ev.cmd with
  | .Quit => (stopAllBots s, false)
  | .Toggle idx => (toggleCmd ev.plat idx s, true)
  | .StartStop => (startStopCmd s, true)
  | .Restart idx => (restartCmd idx s, true)

/-- `process_commands`: drain the queue in arrival order, returning `false`
(and leaving later commands unprocessed) as soon as a `Quit` is handled. -/
def processCommands : Orch → List Event → Orch × Bool
  | s, [] => (s, true)
  | s, ev :: rest =>
      let r := applyEvent s ev
      if r.2 then processCommands r.1 rest else (r.1, false)

/-! ## Scheduler (crates/core/src/orchestrator.rs `orchestrate`) -/

/-- Result of `bot.tick()`: `Ok(Option<u64>)` or `Err`. -/
inductive TickResult where
  | ok (cooldown_ms : Option Nat)
  | err (msg : String)
deriving DecidableEq, Repr

/-- The scripted agents' behaviour during one dispatch, keyed by instance id:
the `tick()` outcome, `get_status().ok()`, and how long the tick call takes. -/
structure TickEnv where
  tickRes : String → TickResult
  statusRes : String → Option String
  tickDur : String → Nat

/-- Update the first list element satisfying `p` (identity when none does). -/
def updateFirstD {α : Type} (p : α → Bool) (f : α → α) : List α → List α
  | [] => []
  | a :: rest => if p a then f a :: rest else a :: updateFirstD p f rest

/-- The status write-back of the tick loop:
`entries.iter_mut().flat_map(|e| e.instances.iter_mut()).find(|i| i.id == id)`
updates the first matching instance across the flattened instance list with
`status = status.unwrap_or_default()` and `error = err`. -/
def writeBack (id : String) (status : Option String) (err : Option String) :
    List BotEntry → List BotEntry
  | [] => []
  | e :: rest =>
      let upd := updateFirstD (fun i => i.id == id)
        (fun i => { i with status := status.getD "", error := err })
      if e.instances.any (fun i => i.id == id) then
        { e with instances := upd e.instances } :: rest
      else e :: writeBack id status err rest

/-- One tick dispatch of the loop body: skip if the id has no live bot
(`let Some(bot) = bots.get(id) else continue`); otherwise set the active
flag, bring the window to the foreground, sleep 200ms, call `tick()`
(default cooldown 5000ms when it returns no value or fails, the error string
captured on failure), fetch `get_status().ok()` on success, reset the active
flag, set the cooldown deadline to now plus the cooldown, and write
status/error back into the registry. -/
def dispatchTick (env : TickEnv) (s : Orch) (id : String) : Orch :=
  match alFind s.bots id with
  | none => s
  | some bot =>
      let r :=
        match env.tickRes id with
        | .ok ms => (ms.getD 5000, env.statusRes id, (none : Option String))
        | .err e => (5000, none, some e)
      let now2 := s.now + 200 + env.tickDur id
      { s with
          bots := alInsert s.bots id { bot with active := false }
          cooldowns := alInsert s.cooldowns id (now2 + r.1)
          entries := writeBack id r.2.1 r.2.2 s.entries
          now := now2 }

/-- The ready snapshot of a `Running` pass: instance ids of enabled entries
that have a live bot and whose cooldown deadline is absent or elapsed. -/
def readySnapshot (s : Orch) : List String :=
  (((s.entries.filter (fun e => e.enabled)).flatMap (fun e => e.instances)).filter
    (fun i => (alFind s.bots i.id).isSome &&
      (match alFind s.cooldowns i.id with
       | none => true
       | some t => t ≤ s.now))).map (fun i => i.id)

/-- The `for id in &ready` loop: before each dispatch re-drain commands
(`pend` supplies the commands that arrived before each dispatch) and re-check
the run state, aborting the pass when it is no longer `Running`; `none`
means `Quit` was drained and `orchestrate` returned. -/
def runReady (env : TickEnv) : Orch → List String → List (List Event) → Option Orch
  | s, [], _ => some s
  | s, id :: rest, pend =>
      let r := processCommands s (pend.headD [])
      if r.2 = false then none
      else if r.1.orch_state ≠ OrchestratorState.Running then some r.1
      else runReady env (dispatchTick env r.1 id) rest pend.tail

/-- One iteration of `orchestrate`'s `loop`: drain commands (return on
`Quit`), tear down and become `Stopped` if `Stopping`, sleep if not
`Running`, otherwise snapshot the ready ids and dispatch them, then sleep
100ms. -/
def orchIteration (env : TickEnv) (evs : List Event) (pend : List (List Event))
    (s : Orch) : Option Orch :=
  let r := processCommands s evs
  if r.2 = false then none
  else
    match r.1.orch_state with
    | .Stopping => some (stopAllBots r.1)
    | .Stopped => some { r.1 with now := r.1.now + 100 }
    | .Running =>
        match runReady env r.1 (readySnapshot r.1) pend with
        | none => none
        | some s2 => some { s2 with now := s2.now + 100 }

/-! ## The Lua window layer (crates/core/src/lua_rt.rs and
crates/finger-core/src/lua_rt.rs)

A script's window-affecting calls. Payloads that do not influence the
control flow (the two `f64` click ratios) are elided. -/

/-- The four window-affecting script operations. -/
inductive WinOp where
  | click
  | tap (key : String)
  | typeText (text : String)
  | decodev2
deriving DecidableEq, Repr

/-- Method dispatch of `LuaWindow` in `crates/core/src/lua_rt.rs`: each of
`click`/`tap`/`type`/`decodev2` first checks `this.active.get()` and, when
the flag is false, logs a warning and returns without touching the
`WindowHandle`; `some op` means the underlying operation executed, `none`
that the call was dropped. -/
def luaWindowCall (active : Bool) (op : WinOp) : Option WinOp :=
  if active then some op else none

/-- Method dispatch of `LuaWindow` in `crates/finger-core/src/lua_rt.rs`:
that variant stores no active flag at all — `click`/`tap`/`type`/`decodev2`
call straight into the `WindowHandle` — so dispatch ignores whatever
activity state the agent is in. -/
def fingerCoreLuaWindowCall (_active : Bool) (op : WinOp) : Option WinOp :=
  some op

/-! ## Generic fold lemmas -/

theorem foldl_preserve {α σ : Type} (P : σ → Prop) (f : σ → α → σ)
    (h : ∀ st a, P st → P (f st a)) :
    ∀ (l : List α) (st : σ), P st → P (l.foldl f st) := by
  intro l
  induction l with
  | nil => exact fun st hst => hst
  | cons a l ih => exact fun st hst => ih (f st a) (h st a hst)

theorem foldl_establish {α σ : Type} (Q : σ → Prop) (f : σ → α → σ) (x : α)
    (hx : ∀ st, Q (f st x)) (hkeep : ∀ st a, Q st → Q (f st a)) :
    ∀ (l : List α) (st : σ), x ∈ l → Q (l.foldl f st) := by
  intro l
  induction l with
  | nil => intro st hmem; cases hmem
  | cons a l ih =>
      intro st hmem
      rcases List.mem_cons.mp hmem with rfl | hmem
      · exact foldl_preserve Q f hkeep l (f st x) (hx st)
      · exact ih (f st a) hmem

/-! ## Association-list lemmas -/

theorem alFind_cons {β : Type} (kv : String × β) (m : List (String × β)) (id : String) :
    alFind (kv :: m) id = if kv.1 = id then some kv.2 else alFind m id := rfl

theorem alErase_cons {β : Type} (kv : String × β) (m : List (String × β)) (k : String) :
    alErase (kv :: m) k = if kv.1 = k then alErase m k else kv :: alErase m k := by
  by_cases hk : kv.1 = k
  · simp [alErase, List.filter_cons, hk]
  · simp [alErase, List.filter_cons, hk]

theorem alFind_erase {β : Type} (m : List (String × β)) (k id : String) (a : β)
    (h : alFind (alErase m k) id = some a) : id ≠ k ∧ alFind m id = some a := by
  induction m with
  | nil => simp [alErase, alFind] at h
  | cons kv m ih =>
      rw [alErase_cons] at h
      by_cases hk : kv.1 = k
      · rw [if_pos hk] at h
        obtain ⟨hne, hfind⟩ := ih h
        refine ⟨hne, ?_⟩
        rw [alFind_cons, if_neg (fun he => hne (by rw [← he]; exact hk))]
        exact hfind
      · rw [if_neg hk, alFind_cons] at h
        rw [alFind_cons]
        by_cases hid : kv.1 = id
        · rw [if_pos hid] at h ⊢
          exact ⟨fun he => hk (hid.trans he), h⟩
        · rw [if_neg hid] at h ⊢
          exact ih h

theorem alFind_erase_self {β : Type} (m : List (String × β)) (k : String) :
    alFind (alErase m k) k = none := by
  cases h : alFind (alErase m k) k with
  | none => rfl
  | some a => exact absurd rfl (alFind_erase m k k a h).1

theorem alFind_erase_ne {β : Type} (m : List (String × β)) (k id : String)
    (h : id ≠ k) : alFind (alErase m k) id = alFind m id := by
  induction m with
  | nil => rfl
  | cons kv m ih =>
      rw [alErase_cons]
      by_cases hk : kv.1 = k
      · rw [if_pos hk, ih, alFind_cons, if_neg (fun hi => h (by rw [← hi]; exact hk))]
      · rw [if_neg hk, alFind_cons, alFind_cons, ih]

theorem alFind_subst_map_ne {β : Type} (k id : String) (v : β) (h : id ≠ k) :
    ∀ m : List (String × β),
      alFind (m.map (fun kv => if kv.1 = k then (k, v) else kv)) id = alFind m id := by
  intro m
  induction m with
  | nil => rfl
  | cons kv m ih =>
      show alFind ((if kv.1 = k then (k, v) else kv) :: _) id = _
      by_cases hk : kv.1 = k
      · rw [if_pos hk]
        show (if k = id then some v else _) = _
        rw [if_neg (fun he => h he.symm), ih,
          show alFind (kv :: m) id = if kv.1 = id then some kv.2 else alFind m id from rfl,
          if_neg (fun he => h (by rw [← he]; exact hk))]
      · rw [if_neg hk]
        show (if kv.1 = id then some kv.2 else _) = _
        rw [ih,
          show alFind (kv :: m) id = if kv.1 = id then some kv.2 else alFind m id from rfl]

theorem alFind_subst_map_self {β : Type} (k : String) (v : β) :
    ∀ m : List (String × β), (alFind m k).isSome →
      alFind (m.map (fun kv => if kv.1 = k then (k, v) else kv)) k = some v := by
  intro m
  induction m with
  | nil => intro hp; simp [alFind] at hp
  | cons kv m ih =>
      intro hp
      show alFind ((if kv.1 = k then (k, v) else kv) :: _) k = _
      by_cases hk : kv.1 = k
      · rw [if_pos hk]
        show (if k = k then some v else _) = _
        rw [if_pos rfl]
      · rw [if_neg hk]
        show (if kv.1 = k then some kv.2 else _) = _
        rw [if_neg hk]
        exact ih (by simpa [alFind, hk] using hp)

theorem alFind_append_one_ne {β : Type} (k id : String) (v : β) (h : id ≠ k) :
    ∀ m : List (String × β), alFind (m ++ [(k, v)]) id = alFind m id := by
  intro m
  induction m with
  | nil => simp [alFind, if_neg (fun he : k = id => h he.symm)]
  | cons kv m ih =>
      show (if kv.1 = id then some kv.2 else alFind (m ++ [(k, v)]) id) = _
      rw [ih, show alFind (kv :: m) id = if kv.1 = id then some kv.2 else alFind m id from rfl]

theorem alFind_append_one_self {β : Type} (k : String) (v : β) :
    ∀ m : List (String × β), alFind m k = none → alFind (m ++ [(k, v)]) k = some v := by
  intro m
  induction m with
  | nil => simp [alFind]
  | cons kv m ih =>
      intro hp
      have hk : ¬ kv.1 = k := by
        intro he
        simp [alFind, he] at hp
      show (if kv.1 = k then some kv.2 else alFind (m ++ [(k, v)]) k) = _
      rw [if_neg hk]
      exact ih (by simpa [alFind, hk] using hp)

theorem alFind_insert_self {β : Type} (m : List (String × β)) (k : String) (v : β) :
    alFind (alInsert m k v) k = some v := by
  unfold alInsert
  by_cases hp : (alFind m k).isSome
  · rw [if_pos hp]
    exact alFind_subst_map_self k v m hp
  · rw [if_neg hp]
    exact alFind_append_one_self k v m (Option.not_isSome_iff_eq_none.mp hp)

theorem alFind_insert_ne {β : Type} (m : List (String × β)) (k id : String) (v : β)
    (h : id ≠ k) : alFind (alInsert m k v) id = alFind m id := by
  unfold alInsert
  by_cases hp : (alFind m k).isSome
  · rw [if_pos hp]
    exact alFind_subst_map_ne k id v h m
  · rw [if_neg hp]
    exact alFind_append_one_ne k id v h m

theorem alFind_insert_cases {β : Type} (m : List (String × β)) (k id : String)
    (v a : β) (h : alFind (alInsert m k v) id = some a) :
    a = v ∨ alFind m id = some a := by
  by_cases hid : id = k
  · subst hid
    rw [alFind_insert_self] at h
    exact Or.inl (Option.some.inj h).symm
  · rw [alFind_insert_ne m k id v hid] at h
    exact Or.inr h

/-- At most one binding per key: the `HashMap` keying discipline. -/
def NoDupKeys {β : Type} (m : List (String × β)) : Prop :=
  (m.map Prod.fst).Nodup

theorem alFind_eq_none_iff {β : Type} (m : List (String × β)) (k : String) :
    alFind m k = none ↔ k ∉ m.map Prod.fst := by
  induction m with
  | nil => simp [alFind]
  | cons kv m ih =>
      rw [alFind_cons, List.map_cons]
      by_cases hk : kv.1 = k
      · constructor
        · intro hfind
          rw [if_pos hk] at hfind
          cases hfind
        · intro hmem
          exact absurd (hk ▸ List.mem_cons_self kv.1 (m.map Prod.fst)) hmem
      · rw [if_neg hk]
        constructor
        · intro hfind hmem
          rcases List.mem_cons.mp hmem with he | hmem2
          · exact hk he.symm
          · exact ih.mp hfind hmem2
        · intro hmem
          exact ih.mpr (fun hmem2 => hmem (List.mem_cons_of_mem _ hmem2))

theorem NoDupKeys_erase {β : Type} (m : List (String × β)) (k : String)
    (h : NoDupKeys m) : NoDupKeys (alErase m k) := by
  refine List.Nodup.sublist (List.Sublist.map Prod.fst ?_) h
  exact List.filter_sublist m

theorem NoDupKeys_insert {β : Type} (m : List (String × β)) (k : String) (v : β)
    (h : NoDupKeys m) : NoDupKeys (alInsert m k v) := by
  unfold alInsert
  by_cases hp : (alFind m k).isSome
  · rw [if_pos hp]
    have : (m.map fun kv => if kv.1 = k then (k, v) else kv).map Prod.fst = m.map Prod.fst := by
      rw [List.map_map]
      refine List.map_congr_left (fun kv _ => ?_)
      by_cases hk : kv.1 = k
      · simp [hk]
      · simp [hk]
    unfold NoDupKeys
    rw [this]
    exact h
  · rw [if_neg hp]
    unfold NoDupKeys
    rw [List.map_append]
    refine List.Nodup.append h (List.nodup_singleton k) ?_
    intro x hx hxk
    have hxk2 : x = k := by simpa using hxk
    subst hxk2
    exact ((alFind_eq_none_iff m x).mp (Option.not_isSome_iff_eq_none.mp hp)) hx

/-! ## Step-closure scaffolding

An orchestrator-state predicate closed under every primitive step of the
system is preserved by whole command-processing passes and whole scheduler
iterations. -/

structure StepClosed (P : Orch → Prop) : Prop where
  event : ∀ s ev, P s → P (applyEvent s ev).1
  tick : ∀ env s id, P s → P (dispatchTick env s id)
  time : ∀ s n, P s → P { s with now := n }

/-- Every mutation of the live-agent table in the whole system is one of:
erase a key, insert an agent whose active flag is false, or drop the whole
table. A table predicate closed under those three is closed under every
step. -/
structure BotsClosed (Q : List (String × Agent) → Prop) : Prop where
  erase : ∀ m k, Q m → Q (alErase m k)
  insert : ∀ m k a, a.active = false → Q m → Q (alInsert m k a)
  empty : Q []

theorem BotsClosed.stopAndRemove {Q : List (String × Agent) → Prop}
    (hq : BotsClosed Q) (s : Orch) (id : String) (hs : Q s.bots) :
    Q (stopAndRemove s id).bots := by
  unfold Finger.stopAndRemove
  split
  · exact hq.erase s.bots id hs
  · exact hs

theorem BotsClosed.createAgent {Q : List (String × Agent) → Prop}
    (hq : BotsClosed Q) (s : Orch) (id : String) (hs : Q s.bots) :
    Q (createAgent s id).bots :=
  hq.insert s.bots id ⟨s.next_aid, false⟩ rfl hs

theorem BotsClosed.dropInstance {Q : List (String × Agent) → Prop}
    (hq : BotsClosed Q) (s : Orch) (i : Instance) (hs : Q s.bots) :
    Q (dropInstance s i).bots :=
  hq.stopAndRemove s i.id hs

theorem BotsClosed.reconcileAll {Q : List (String × Agent) → Prop}
    (hq : BotsClosed Q) (plat : Plat) (s : Orch) (hs : Q s.bots) :
    Q (reconcileAll plat s).bots := by
  unfold Finger.reconcileAll
  exact foldl_preserve (fun acc : Orch × List BotEntry => Q acc.1.bots) _
    (fun acc e hacc =>
      foldl_preserve (fun st : Orch => Q st.bots) _
        (fun st i hst => hq.dropInstance st i hst) _ acc.1 hacc)
    s.entries ({ s with entries := [] }, []) hs

theorem BotsClosed.toggleApply {Q : List (String × Agent) → Prop}
    (hq : BotsClosed Q) (idx : Nat) (s : Orch) (hs : Q s.bots) :
    Q (toggleApply idx s).bots := by
  unfold Finger.toggleApply
  split
  · exact hs
  · split
    · refine foldl_preserve (fun st : Orch => Q st.bots) _ (fun st i hst => ?_)
        _ s hs
      split
      · exact hst
      · exact hq.createAgent st i.id hst
    · split
      · exact foldl_preserve (fun st : Orch => Q st.bots) _
          (fun st i hst => hq.dropInstance st i hst) _ s hs
      · exact hs

theorem BotsClosed.startRunning {Q : List (String × Agent) → Prop}
    (hq : BotsClosed Q) (s : Orch) (hs : Q s.bots) :
    Q (startRunning s).bots := by
  unfold Finger.startRunning
  refine foldl_preserve (fun st : Orch => Q st.bots) _ (fun st e hst => ?_)
    s.entries s hs
  split
  · exact hst
  · refine foldl_preserve (fun st2 : Orch => Q st2.bots) _ (fun st2 i hst2 => ?_)
      e.instances st hst
    split
    · exact hst2
    · exact hq.createAgent st2 i.id hst2

theorem BotsClosed.stepClosed {Q : List (String × Agent) → Prop}
    (hq : BotsClosed Q) : StepClosed (fun s => Q s.bots) := by
  refine ⟨fun s ev hs => ?_, fun env s id hs => ?_, fun s n hs => hs⟩
  · obtain ⟨cmd, plat⟩ := ev
    cases cmd with
    | Quit => exact hq.empty
    | Toggle idx =>
        exact hq.toggleApply idx _ (hq.reconcileAll plat _ hs)
    | StartStop =>
        show Q (startStopCmd s).bots
        unfold Finger.startStopCmd
        split
        · exact hs
        · exact hs
        · exact hq.startRunning _ hs
    | Restart idx =>
        show Q (restartCmd idx s).bots
        unfold Finger.restartCmd
        split
        · exact hs
        · split
          · exact hs
          · split
            · exact hs
            · exact foldl_preserve (fun st : Orch => Q st.bots) _
                (fun st i hst => hq.createAgent _ i.id (hq.dropInstance st i hst))
                _ s hs
  · unfold Finger.dispatchTick
    split
    · exact hs
    · exact hq.insert s.bots id _ rfl hs

theorem StepClosed.processPass {P : Orch → Prop} (h : StepClosed P) :
    ∀ (evs : List Event) (s : Orch), P s → P (processCommands s evs).1 := by
  intro evs
  induction evs with
  | nil => exact fun s hs => hs
  | cons ev rest ih =>
      intro s hs
      by_cases hr : (applyEvent s ev).2
      · simpa [processCommands, hr] using ih (applyEvent s ev).1 (h.event s ev hs)
      · simpa [processCommands, hr] using h.event s ev hs

theorem StepClosed.teardown {P : Orch → Prop} (h : StepClosed P) (s : Orch)
    (hs : P s) : P (stopAllBots s) :=
  h.event s ⟨Command.Quit, fun _ => []⟩ hs

theorem StepClosed.readyLoop {P : Orch → Prop} (h : StepClosed P) :
    ∀ (ids : List String) (pend : List (List Event)) (env : TickEnv) (s s' : Orch),
      runReady env s ids pend = some s' → P s → P s' := by
  intro ids
  induction ids with
  | nil =>
      intro pend env s s' hrun hs
      cases hrun
      exact hs
  | cons id rest ih =>
      intro pend env s s' hrun hs
      rw [runReady] at hrun
      set r := processCommands s (pend.headD []) with hr
      have hP1 : P r.1 := h.processPass _ s hs
      by_cases hq : r.2 = false
      · rw [if_pos hq] at hrun
        cases hrun
      · rw [if_neg hq] at hrun
        by_cases hst : r.1.orch_state ≠ OrchestratorState.Running
        · rw [if_pos hst] at hrun
          cases hrun
          exact hP1
        · rw [if_neg hst] at hrun
          exact ih pend.tail env _ s' hrun (h.tick env _ id hP1)

theorem StepClosed.iteration {P : Orch → Prop} (h : StepClosed P) (env : TickEnv)
    (evs : List Event) (pend : List (List Event)) (s s' : Orch)
    (hit : orchIteration env evs pend s = some s') (hs : P s) : P s' := by
  rw [orchIteration] at hit
  set r := processCommands s evs with hr
  have hP1 : P r.1 := h.processPass evs s hs
  by_cases hq : r.2 = false
  · rw [if_pos hq] at hit
    cases hit
  · rw [if_neg hq] at hit
    cases hst : r.1.orch_state with
    | Stopping =>
        rw [hst] at hit
        cases hit
        exact h.teardown _ hP1
    | Stopped =>
        rw [hst] at hit
        cases hit
        exact h.time _ _ hP1
    | Running =>
        rw [hst] at hit
        cases hrr : runReady env r.1 (readySnapshot r.1) pend with
        | none => rw [hrr] at hit; cases hit
        | some s2 =>
            rw [hrr] at hit
            cases hit
            exact h.time _ _ (h.readyLoop _ pend env _ s2 hrr hP1)

/-! ## Closed bots-table predicates: key uniqueness and inactivity -/

theorem nodupKeys_botsClosed : BotsClosed (fun m => NoDupKeys m) :=
  ⟨fun m k h => NoDupKeys_erase m k h,
   fun m k a _ h => NoDupKeys_insert m k a h,
   List.nodup_nil⟩

/-- Every live agent's active flag is false. -/
def AllInactive (m : List (String × Agent)) : Prop :=
  ∀ id a, alFind m id = some a → a.active = false

theorem allInactive_botsClosed : BotsClosed AllInactive := by
  refine ⟨?_, ?_, ?_⟩
  · intro m k h id a hf
    exact h id a (alFind_erase m k id a hf).2
  · intro m k a ha h id a' hf
    rcases alFind_insert_cases m k id a a' hf with rfl | hf2
    · exact ha
    · exact h id a' hf2
  · intro id a hf
    simp [alFind] at hf

/-! ## Frame lemmas for the primitive steps -/

theorem stopAndRemove_frame (s : Orch) (id : String) :
    (stopAndRemove s id).orch_state = s.orch_state ∧
    (stopAndRemove s id).entries = s.entries ∧
    (stopAndRemove s id).cooldowns = s.cooldowns := by
  unfold Finger.stopAndRemove
  split <;> exact ⟨rfl, rfl, rfl⟩

theorem dropInstance_frame (s : Orch) (i : Instance) :
    (dropInstance s i).orch_state = s.orch_state ∧
    (dropInstance s i).entries = s.entries := by
  unfold Finger.dropInstance
  exact ⟨(stopAndRemove_frame s i.id).1, (stopAndRemove_frame s i.id).2.1⟩

theorem createAgent_frame (s : Orch) (id : String) :
    (createAgent s id).orch_state = s.orch_state ∧
    (createAgent s id).entries = s.entries ∧
    (createAgent s id).cooldowns = s.cooldowns := ⟨rfl, rfl, rfl⟩

/-- Scalar fields of an entry survive the rescan. -/
theorem reconEntry_frame (plat : Plat) (e : BotEntry) :
    (reconEntry plat e).enabled = e.enabled ∧
    (reconEntry plat e).name = e.name ∧
    (reconEntry plat e).window_pattern = e.window_pattern := ⟨rfl, rfl, rfl⟩

/-! ## Structure of the rescan -/

/-- The bots/cooldowns/stop-log effect of rescanning one entry. -/
def reconDead (plat : Plat) (st : Orch) (e : BotEntry) : Orch :=
  (deadInstances plat e).foldl dropInstance st

theorem reconcile_fold_spec (plat : Plat) :
    ∀ (l : List BotEntry) (st : Orch) (acc : List BotEntry),
      l.foldl (reconcileEntry plat) (st, acc)
        = (l.foldl (reconDead plat) st, acc ++ l.map (reconEntry plat)) := by
  intro l
  induction l with
  | nil => intro st acc; simp
  | cons e l ih =>
      intro st acc
      rw [List.foldl_cons, List.foldl_cons,
        show reconcileEntry plat (st, acc) e
          = (reconDead plat st e, acc ++ [reconEntry plat e]) from rfl,
        ih, List.map_cons, List.append_assoc]
      rfl

theorem reconcileAll_eq (plat : Plat) (s : Orch) :
    reconcileAll plat s
      = { s.entries.foldl (reconDead plat) { s with entries := [] } with
          entries := s.entries.map (reconEntry plat) } := by
  unfold Finger.reconcileAll
  rw [reconcile_fold_spec]
  rfl

theorem reconcileAll_entries (plat : Plat) (s : Orch) :
    (reconcileAll plat s).entries = s.entries.map (reconEntry plat) := by
  rw [reconcileAll_eq]

theorem reconcileAll_orch_state (plat : Plat) (s : Orch) :
    (reconcileAll plat s).orch_state = s.orch_state := by
  rw [reconcileAll_eq]
  show (s.entries.foldl (reconDead plat) { s with entries := [] }).orch_state = _
  have := foldl_preserve (fun st : Orch => st.orch_state = s.orch_state)
    (reconDead plat)
    (fun st e hst => by
      unfold reconDead
      exact foldl_preserve (fun st2 : Orch => st2.orch_state = s.orch_state) _
        (fun st2 i hst2 => (dropInstance_frame st2 i).1.trans hst2) _ st hst)
    s.entries { s with entries := [] } rfl
  exact this

/-- A survivor of a dead-instance removal fold was present before and its id
is none of the dropped ids. -/
theorem dropFold_find (l : List Instance) :
    ∀ (st : Orch) (id : String) (a : Agent),
      alFind (l.foldl dropInstance st).bots id = some a →
      alFind st.bots id = some a ∧ ∀ i ∈ l, i.id ≠ id := by
  induction l with
  | nil => exact fun st id a h => ⟨h, fun i hi => absurd hi (List.not_mem_nil i)⟩
  | cons i l ih =>
      intro st id a h
      obtain ⟨hfd, hrest⟩ := ih (dropInstance st i) id a h
      have hstep : alFind st.bots id = some a ∧ i.id ≠ id := by
        revert hfd
        unfold Finger.dropInstance Finger.stopAndRemove
        cases hfi : alFind st.bots i.id with
        | none =>
            intro hfd
            refine ⟨hfd, fun he => ?_⟩
            rw [he] at hfi
            rw [hfi] at hfd
            cases hfd
        | some b =>
            intro hfd
            obtain ⟨hne, hfd2⟩ := alFind_erase st.bots i.id id a hfd
            exact ⟨hfd2, fun he => hne he.symm⟩
      refine ⟨hstep.1, fun j hj => ?_⟩
      rcases List.mem_cons.mp hj with rfl | hj2
      · exact hstep.2
      · exact hrest j hj2

/-- A survivor of the whole rescan was present before, and no entry has a
dead instance bearing its id. -/
theorem reconFold_find (plat : Plat) :
    ∀ (l : List BotEntry) (st : Orch) (id : String) (a : Agent),
      alFind (l.foldl (reconDead plat) st).bots id = some a →
      alFind st.bots id = some a ∧
        ∀ e ∈ l, ∀ i ∈ deadInstances plat e, i.id ≠ id := by
  intro l
  induction l with
  | nil => exact fun st id a h => ⟨h, fun e he => absurd he (List.not_mem_nil e)⟩
  | cons e l ih =>
      intro st id a h
      obtain ⟨hfd, hrest⟩ := ih (reconDead plat st e) id a h
      obtain ⟨hpre, hdead⟩ := dropFold_find (deadInstances plat e) st id a hfd
      refine ⟨hpre, fun e' he' => ?_⟩
      rcases List.mem_cons.mp he' with rfl | he2
      · exact hdead
      · exact hrest e' he2

theorem reconcileAll_find (plat : Plat) (s : Orch) (id : String) (a : Agent)
    (h : alFind (reconcileAll plat s).bots id = some a) :
    alFind s.bots id = some a ∧
      ∀ e ∈ s.entries, ∀ i ∈ e.instances,
        aliveIn (plat e.window_pattern) i = false → i.id ≠ id := by
  rw [reconcileAll_eq] at h
  obtain ⟨hpre, hdead⟩ := reconFold_find plat s.entries { s with entries := [] } id a h
  refine ⟨hpre, fun e he i hi hdd => ?_⟩
  exact hdead e he i (by simp [deadInstances, List.mem_filter, hi, hdd])

/-! ## The discovery loop -/

theorem discoverNew_prefix (name : String) :
    ∀ (wins : List (Nat × String)) (insts : List Instance),
      ∃ ext, discoverNew name wins insts = insts ++ ext := by
  intro wins
  induction wins with
  | nil => exact fun insts => ⟨[], by simp [discoverNew]⟩
  | cons w ws ih =>
      intro insts
      show ∃ ext, discoverNew name ws
        (if insts.any (fun i => i.window_id == w.1) then insts
         else insts ++ [Instance.new name w.1 w.2]) = insts ++ ext
      by_cases hc : insts.any (fun i => i.window_id == w.1)
      · rw [if_pos hc]
        exact ih insts
      · rw [if_neg hc]
        obtain ⟨ext, hext⟩ := ih (insts ++ [Instance.new name w.1 w.2])
        exact ⟨Instance.new name w.1 w.2 :: ext, by rw [hext, List.append_assoc]; rfl⟩

theorem discoverNew_mem_src (name : String) :
    ∀ (wins : List (Nat × String)) (insts : List Instance) (j : Instance),
      j ∈ discoverNew name wins insts →
      j ∈ insts ∨ insts.any (fun i => i.window_id == j.window_id) = false := by
  intro wins
  induction wins with
  | nil => exact fun insts j hj => Or.inl hj
  | cons w ws ih =>
      intro insts j hj
      rw [show discoverNew name (w :: ws) insts
            = discoverNew name ws
                (if insts.any (fun i => i.window_id == w.1) then insts
                 else insts ++ [Instance.new name w.1 w.2]) from rfl] at hj
      by_cases hc : insts.any (fun i => i.window_id == w.1)
      · rw [if_pos hc] at hj
        exact ih insts j hj
      · rw [if_neg hc] at hj
        rcases ih _ j hj with hmem | hany
        · rcases List.mem_append.mp hmem with hmem2 | hnew
          · exact Or.inl hmem2
          · right
            have hjw : j = Instance.new name w.1 w.2 := by simpa using hnew
            subst hjw
            simpa [Instance.new] using eq_false_of_ne_true (fun hc2 => hc hc2)
        · right
          rw [List.any_append] at hany
          exact (Bool.or_eq_false_iff.mp hany).1

theorem discoverNew_covers (name : String) :
    ∀ (wins : List (Nat × String)) (insts : List Instance) (w : Nat × String),
      w ∈ wins →
      (discoverNew name wins insts).any (fun i => i.window_id == w.1) = true := by
  intro wins
  induction wins with
  | nil => intro insts w hw; cases hw
  | cons w0 ws ih =>
      intro insts w hw
      rw [show discoverNew name (w0 :: ws) insts
            = discoverNew name ws
                (if insts.any (fun i => i.window_id == w0.1) then insts
                 else insts ++ [Instance.new name w0.1 w0.2]) from rfl]
      rcases List.mem_cons.mp hw with rfl | hw2
      · by_cases hc : insts.any (fun i => i.window_id == w.1)
        · obtain ⟨ext, hext⟩ := discoverNew_prefix name ws insts
          rw [if_pos hc, hext, List.any_append, hc]
          rfl
        · rw [if_neg hc]
          obtain ⟨ext, hext⟩ := discoverNew_prefix name ws (insts ++ [Instance.new name w.1 w.2])
          rw [hext, List.any_append, List.any_append]
          have : ([Instance.new name w.1 w.2].any fun i => i.window_id == w.1) = true := by
            simp [Instance.new]
          rw [this]
          simp
      · exact ih _ w hw2

theorem discoverNew_fix (name : String) :
    ∀ (wins : List (Nat × String)) (insts : List Instance),
      (∀ w ∈ wins, insts.any (fun i => i.window_id == w.1) = true) →
      discoverNew name wins insts = insts := by
  intro wins
  induction wins with
  | nil => exact fun insts _ => rfl
  | cons w ws ih =>
      intro insts hall
      rw [show discoverNew name (w :: ws) insts
            = discoverNew name ws
                (if insts.any (fun i => i.window_id == w.1) then insts
                 else insts ++ [Instance.new name w.1 w.2]) from rfl,
        if_pos (hall w (List.mem_cons_self w ws))]
      exact ih insts (fun w' hw' => hall w' (List.mem_cons_of_mem w hw'))

theorem foldl_id {α σ : Type} (f : σ → α → σ) (l : List α)
    (h : ∀ (st : σ) (x : α), x ∈ l → f st x = st) :
    ∀ st : σ, l.foldl f st = st := by
  induction l with
  | nil => exact fun st => rfl
  | cons x l ih =>
      intro st
      rw [List.foldl_cons, h st x (List.mem_cons_self x l)]
      exact ih (fun st' y hy => h st' y (List.mem_cons_of_mem x hy)) st

theorem discoverNew_mem_alive (name : String) :
    ∀ (wins : List (Nat × String)) (insts : List Instance) (j : Instance),
      j ∈ discoverNew name wins insts →
      j ∈ insts ∨ ∃ w ∈ wins, j.window_id = w.1 := by
  intro wins
  induction wins with
  | nil => exact fun insts j hj => Or.inl hj
  | cons w ws ih =>
      intro insts j hj
      rw [show discoverNew name (w :: ws) insts
            = discoverNew name ws
                (if insts.any (fun i => i.window_id == w.1) then insts
                 else insts ++ [Instance.new name w.1 w.2]) from rfl] at hj
      by_cases hc : insts.any (fun i => i.window_id == w.1)
      · rw [if_pos hc] at hj
        rcases ih insts j hj with hm | ⟨w', hw', he⟩
        · exact Or.inl hm
        · exact Or.inr ⟨w', List.mem_cons_of_mem w hw', he⟩
      · rw [if_neg hc] at hj
        rcases ih _ j hj with hm | ⟨w', hw', he⟩
        · rcases List.mem_append.mp hm with hm2 | hnew
          · exact Or.inl hm2
          · have hjw : j = Instance.new name w.1 w.2 := by simpa using hnew
            exact Or.inr ⟨w, List.mem_cons_self w ws, by rw [hjw]; rfl⟩
        · exact Or.inr ⟨w', List.mem_cons_of_mem w hw', he⟩

/-- Every instance of a rescanned entry is alive in the snapshot. -/
theorem reconEntry_all_alive (plat : Plat) (e : BotEntry) :
    ∀ j ∈ (reconEntry plat e).instances, aliveIn (plat e.window_pattern) j = true := by
  intro j hj
  rcases discoverNew_mem_alive e.name (plat e.window_pattern) (keptInstances plat e) j hj
    with hk | ⟨w, hw, he⟩
  · exact (List.mem_filter.mp hk).2
  · exact List.any_eq_true.mpr ⟨w, hw, by rw [he]; exact beq_self_eq_true _⟩

theorem keptInstances_reconEntry (plat : Plat) (e : BotEntry) :
    keptInstances plat (reconEntry plat e) = (reconEntry plat e).instances := by
  refine List.filter_eq_self.mpr (fun j hj => ?_)
  exact reconEntry_all_alive plat e j hj

theorem deadInstances_reconEntry (plat : Plat) (e : BotEntry) :
    deadInstances plat (reconEntry plat e) = [] := by
  refine List.filter_eq_nil_iff.mpr (fun j hj => ?_)
  show ¬(!aliveIn (plat e.window_pattern) j) = true
  rw [reconEntry_all_alive plat e j hj]
  simp

theorem reconEntry_idem (plat : Plat) (e : BotEntry) :
    reconEntry plat (reconEntry plat e) = reconEntry plat e := by
  show { reconEntry plat e with
         instances := discoverNew e.name (plat e.window_pattern)
           (keptInstances plat (reconEntry plat e)) } = reconEntry plat e
  rw [keptInstances_reconEntry]
  rw [show (reconEntry plat e).instances
        = discoverNew e.name (plat e.window_pattern) (keptInstances plat e) from rfl]
  rw [discoverNew_fix e.name (plat e.window_pattern)
    (discoverNew e.name (plat e.window_pattern) (keptInstances plat e))
    (fun w hw => discoverNew_covers e.name (plat e.window_pattern) (keptInstances plat e) w hw)]
  rfl

/-! ## Claim theorems: reconcile -/

/-- C6: rescanning twice with the same live-window snapshot equals
rescanning once — same instances (ids and order) for every entry, no
duplication, and no further bot or cooldown changes: the whole orchestrator
state is a fixed point of the second run. -/
theorem reconcile_idempotent (plat : Plat) (s : Orch) :
    reconcileAll plat (reconcileAll plat s) = reconcileAll plat s := by
  have hfold : (reconcileAll plat s).entries.foldl (reconDead plat)
      { reconcileAll plat s with entries := [] }
      = { reconcileAll plat s with entries := [] } := by
    refine foldl_id _ _ (fun st e'' hmem => ?_) _
    rw [reconcileAll_entries] at hmem
    obtain ⟨e, _, rfl⟩ := List.mem_map.mp hmem
    show (deadInstances plat (reconEntry plat e)).foldl dropInstance st = st
    rw [deadInstances_reconEntry]
    rfl
  have hmap : (reconcileAll plat s).entries.map (reconEntry plat)
      = (reconcileAll plat s).entries := by
    rw [reconcileAll_entries, List.map_map]
    exact List.map_congr_left (fun e _ => reconEntry_idem plat e)
  rw [reconcileAll_eq plat (reconcileAll plat s), hfold, hmap]

/-- C7: an instance whose window is still in the snapshot is retained as the
very same record (so its id, status and error fields are untouched), its
entry's rescan result is the entry produced by the full rescan, and no new
instance with its window id is created alongside it. -/
theorem reconcile_preserves_survivors (plat : Plat) (s : Orch) (e : BotEntry)
    (i : Instance) (he : e ∈ s.entries) (hi : i ∈ e.instances)
    (halive : aliveIn (plat e.window_pattern) i = true) :
    reconEntry plat e ∈ (reconcileAll plat s).entries ∧
    i ∈ (reconEntry plat e).instances ∧
    (∀ j ∈ (reconEntry plat e).instances, j.window_id = i.window_id →
      j ∈ e.instances) := by
  have hkept : i ∈ keptInstances plat e :=
    List.mem_filter.mpr ⟨hi, halive⟩
  refine ⟨?_, ?_, ?_⟩
  · rw [reconcileAll_entries]
    exact List.mem_map.mpr ⟨e, he, rfl⟩
  · obtain ⟨ext, hext⟩ :=
      discoverNew_prefix e.name (plat e.window_pattern) (keptInstances plat e)
    show i ∈ discoverNew e.name (plat e.window_pattern) (keptInstances plat e)
    rw [hext]
    exact List.mem_append.mpr (Or.inl hkept)
  · intro j hj hwid
    rcases discoverNew_mem_src e.name (plat e.window_pattern) (keptInstances plat e) j hj
      with hk | hany
    · exact (List.mem_filter.mp hk).1
    · exfalso
      have : (keptInstances plat e).any (fun i' => i'.window_id == j.window_id) = true :=
        List.any_eq_true.mpr ⟨i, hkept, by rw [hwid]; exact beq_self_eq_true _⟩
      rw [this] at hany
      cases hany

/-! ### Concrete test fixtures -/

/-- A platform snapshot with one window (id 1, title "w") for pattern "pa". -/
def platW : Plat := fun p => if p = "pa" then [(1, "w")] else []

/-- A platform snapshot with no windows at all. -/
def platNone : Plat := fun _ => []

/-- A bot entry named "a" with one instance bound to window 1. -/
def entW : BotEntry :=
  { name := "a", window_pattern := "pa", description := "", enabled := true,
    instances := [Instance.new "a" 1 "w"], error := none, script_path := "" }

/-- A running one-entry state with a live agent for instance "a-1". -/
def sW : Orch :=
  { entries := [entW], orch_state := OrchestratorState.Running,
    bots := [("a-1", ⟨7, false⟩)],
    cooldowns := [], next_aid := 8, stop_log := [], now := 1000 }

/-- Witness for C7: a one-entry, one-instance state whose single window stays
alive. -/
theorem reconcile_preserves_survivors_witness :
    reconEntry platW entW ∈ (reconcileAll platW sW).entries ∧
    Instance.new "a" 1 "w" ∈ (reconEntry platW entW).instances ∧
    (∀ j ∈ (reconEntry platW entW).instances,
      j.window_id = (Instance.new "a" 1 "w").window_id → j ∈ entW.instances) :=
  reconcile_preserves_survivors platW sW entW (Instance.new "a" 1 "w")
    (List.mem_cons_self _ _) (List.mem_cons_self _ _) (by decide)

/-! ## The status write-back -/

/-- The registry's instances in flattened iteration order:
`entries.iter_mut().flat_map(|e| e.instances.iter_mut())`. -/
def flatInstances (es : List BotEntry) : List Instance :=
  es.flatMap (fun e => e.instances)

/-- An entry with its instances stripped: the frame of entry-level fields. -/
def entryShape (e : BotEntry) : BotEntry := { e with instances := [] }

theorem updateFirstD_append_left {α : Type} (p : α → Bool) (f : α → α) :
    ∀ (l1 l2 : List α), l1.any p = true →
      updateFirstD p f (l1 ++ l2) = updateFirstD p f l1 ++ l2 := by
  intro l1
  induction l1 with
  | nil => intro l2 h; cases h
  | cons a l1 ih =>
      intro l2 h
      show (if p a then f a :: (l1 ++ l2) else a :: updateFirstD p f (l1 ++ l2))
        = (if p a then f a :: l1 else a :: updateFirstD p f l1) ++ l2
      by_cases hp : p a
      · rw [if_pos hp, if_pos hp]
        rfl
      · rw [if_neg hp, if_neg hp]
        have h2 : l1.any p = true := by
          rcases List.any_eq_true.mp h with ⟨x, hx, hpx⟩
          rcases List.mem_cons.mp hx with rfl | hx2
          · exact absurd hpx hp
          · exact List.any_eq_true.mpr ⟨x, hx2, hpx⟩
        rw [ih l2 h2]
        rfl

theorem updateFirstD_append_right {α : Type} (p : α → Bool) (f : α → α) :
    ∀ (l1 l2 : List α), l1.any p = false →
      updateFirstD p f (l1 ++ l2) = l1 ++ updateFirstD p f l2 := by
  intro l1
  induction l1 with
  | nil => intro l2 _; rfl
  | cons a l1 ih =>
      intro l2 h
      rw [List.any_cons] at h
      obtain ⟨hpa, hl1⟩ := Bool.or_eq_false_iff.mp h
      show (if p a then f a :: (l1 ++ l2) else a :: updateFirstD p f (l1 ++ l2))
        = a :: (l1 ++ updateFirstD p f l2)
      rw [if_neg (by rw [hpa]; exact fun hc => Bool.false_ne_true hc), ih l2 hl1]

theorem writeBack_flat (id : String) (st er : Option String) :
    ∀ es : List BotEntry,
      flatInstances (writeBack id st er es)
        = updateFirstD (fun i => i.id == id)
            (fun i => { i with status := st.getD "", error := er })
            (flatInstances es) := by
  intro es
  induction es with
  | nil => rfl
  | cons e es ih =>
      show flatInstances
          (if e.instances.any (fun i => i.id == id) then
            { e with instances := (updateFirstD (fun i => i.id == id)
                (fun i => { i with status := st.getD "", error := er }) e.instances) } :: es
           else e :: writeBack id st er es) = _
      by_cases hc : e.instances.any (fun i => i.id == id)
      · rw [if_pos hc]
        show updateFirstD _ _ e.instances ++ flatInstances es = _
        rw [show flatInstances (e :: es) = e.instances ++ flatInstances es from rfl,
          updateFirstD_append_left _ _ e.instances (flatInstances es) hc]
      · rw [if_neg hc]
        show e.instances ++ flatInstances (writeBack id st er es) = _
        rw [ih,
          show flatInstances (e :: es) = e.instances ++ flatInstances es from rfl,
          updateFirstD_append_right _ _ e.instances (flatInstances es)
            (Bool.eq_false_iff.mpr hc)]

theorem writeBack_shape (id : String) (st er : Option String) :
    ∀ es : List BotEntry,
      (writeBack id st er es).map entryShape = es.map entryShape := by
  intro es
  induction es with
  | nil => rfl
  | cons e es ih =>
      show List.map entryShape
          (if e.instances.any (fun i => i.id == id) then _ :: es
           else e :: writeBack id st er es) = _
      by_cases hc : e.instances.any (fun i => i.id == id)
      · rw [if_pos hc]
        rfl
      · rw [if_neg hc, List.map_cons, ih]
        rfl

/-! ## Claim theorems: tick dispatch -/

/-- The error captured on the instance by a dispatch: the tick error's
string, or nothing when the tick succeeded. -/
def tickErrOf (r : TickResult) : Option String :=
  match r with
  | TickResult.err e => some e
  | TickResult.ok _ => none

/-- The cooldown a dispatch applies: the returned value, or 5000ms when the
tick returned nothing or failed. -/
def tickCd (r : TickResult) : Nat :=
  match r with
  | TickResult.ok ms => ms.getD 5000
  | TickResult.err _ => 5000

/-- The status a dispatch fetches: `get_status().ok()` on success, nothing
after a tick error. -/
def tickStatus (env : TickEnv) (id : String) : Option String :=
  match env.tickRes id with
  | TickResult.ok _ => env.statusRes id
  | TickResult.err _ => none

/-- What one dispatch on a live agent does, spelled out. -/
theorem dispatchTick_eq (env : TickEnv) (s : Orch) (id : String) (bot : Agent)
    (hfind : alFind s.bots id = some bot) :
    dispatchTick env s id
      = { s with
          bots := alInsert s.bots id { bot with active := false }
          cooldowns := alInsert s.cooldowns id
            (s.now + 200 + env.tickDur id + tickCd (env.tickRes id))
          entries := writeBack id (tickStatus env id) (tickErrOf (env.tickRes id)) s.entries
          now := s.now + 200 + env.tickDur id } := by
  unfold Finger.dispatchTick
  rw [hfind]
  unfold tickCd tickStatus tickErrOf
  cases env.tickRes id <;> rfl

/-- The scripted behaviour of a failing agent: `tick()` errors, so no status
is fetched. -/
def envErr : TickEnv :=
  { tickRes := fun _ => TickResult.err "boom"
    statusRes := fun _ => none
    tickDur := fun _ => 50 }

/-- A registry instance that already carries a non-empty status. -/
def instS : Instance :=
  { id := "a-1", window_id := 1, window_title := "w", status := "prev", error := none }

/-- The entry owning that instance. -/
def entS : BotEntry :=
  { name := "a", window_pattern := "pa", description := "", enabled := true,
    instances := [instS], error := none, script_path := "" }

/-- A running state holding that instance and its live agent. -/
def sS : Orch :=
  { entries := [entS], orch_state := OrchestratorState.Running,
    bots := [("a-1", ⟨7, false⟩)],
    cooldowns := [], next_aid := 8, stop_log := [], now := 1000 }

/-- C3 counterexample: when `tick()` fails, the instance's previous status
"prev" is not left unchanged — the write-back `status.unwrap_or_default()`
overwrites it with the empty string. -/
theorem status_writeback_counterexample :
    (flatInstances (dispatchTick envErr sS "a-1").entries).map (fun i => i.status)
      = [""] ∧
    (flatInstances sS.entries).map (fun i => i.status) = ["prev"] ∧
    ("" : String) ≠ "prev" := by
  refine ⟨by decide, by decide, by decide⟩

/-- C3 (amended): during a tick dispatch, if `get_status()` fails (or
`tick()` itself fails so no status is fetched), the instance's status is
overwritten with the empty string (not preserved) and its error field is set
to the tick error (or cleared when the tick succeeded); only the first
registry instance with that id changes, and every entry's non-instance
fields are untouched. -/
theorem status_writeback_on_failure (env : TickEnv) (s : Orch) (id : String)
    (bot : Agent) (hfind : alFind s.bots id = some bot)
    (hfail : env.statusRes id = none ∨ ∃ e, env.tickRes id = TickResult.err e) :
    flatInstances (dispatchTick env s id).entries
      = updateFirstD (fun i => i.id == id)
          (fun i => { i with status := "", error := tickErrOf (env.tickRes id) })
          (flatInstances s.entries) ∧
    (dispatchTick env s id).entries.map entryShape = s.entries.map entryShape := by
  rw [dispatchTick_eq env s id bot hfind]
  have hst2 : (tickStatus env id).getD "" = "" := by
    unfold tickStatus
    cases htick : env.tickRes id with
    | ok ms =>
        rcases hfail with hst | ⟨e, he⟩
        · rw [hst]
          rfl
        · rw [htick] at he
          cases he
    | err e => rfl
  constructor
  · show flatInstances
        (writeBack id (tickStatus env id) (tickErrOf (env.tickRes id)) s.entries) = _
    rw [writeBack_flat]
    simp only [hst2]
  · show (writeBack id (tickStatus env id) (tickErrOf (env.tickRes id)) s.entries).map
        entryShape = _
    rw [writeBack_shape]

/-- C5: for every dispatched tick, if `tick()` returns no cooldown value or
returns an error, the instance's next-eligible-time is the post-tick clock
plus 5000ms — strictly in the future, so no immediate re-eligibility; on a
tick error the error string is recorded on the (first) registry instance
with that id, the agent remains in the live-agent table, and the ready loop
continues with the remaining snapshot. -/
theorem tick_outcome_handling (env : TickEnv) (s : Orch) (id : String) (bot : Agent)
    (hfind : alFind s.bots id = some bot) :
    ((env.tickRes id = TickResult.ok none ∨ (∃ e, env.tickRes id = TickResult.err e)) →
      alFind (dispatchTick env s id).cooldowns id
        = some (s.now + 200 + env.tickDur id + 5000) ∧
      (dispatchTick env s id).now < s.now + 200 + env.tickDur id + 5000) ∧
    (∀ e, env.tickRes id = TickResult.err e →
      flatInstances (dispatchTick env s id).entries
        = updateFirstD (fun i => i.id == id)
            (fun i => { i with status := "", error := some e })
            (flatInstances s.entries) ∧
      alFind (dispatchTick env s id).bots id = some { bot with active := false }) ∧
    (s.orch_state = OrchestratorState.Running →
      ∀ rest : List String,
        runReady env s (id :: rest) [] = runReady env (dispatchTick env s id) rest []) := by
  rw [dispatchTick_eq env s id bot hfind]
  refine ⟨?_, ?_, ?_⟩
  · intro hcd
    have h5 : tickCd (env.tickRes id) = 5000 := by
      rcases hcd with hok | ⟨e, he⟩
      · rw [hok]
        rfl
      · rw [he]
        rfl
    constructor
    · show alFind (alInsert s.cooldowns id
          (s.now + 200 + env.tickDur id + tickCd (env.tickRes id))) id = _
      rw [h5, alFind_insert_self]
    · show s.now + 200 + env.tickDur id < _
      omega
  · intro e he
    constructor
    · show flatInstances
          (writeBack id (tickStatus env id) (tickErrOf (env.tickRes id)) s.entries) = _
      rw [writeBack_flat]
      have h1 : (tickStatus env id).getD "" = "" := by
        unfold tickStatus
        rw [he]
        rfl
      have h2 : tickErrOf (env.tickRes id) = some e := by
        rw [he]
        rfl
      simp only [h1, h2]
    · show alFind (alInsert s.bots id { bot with active := false }) id = _
      rw [alFind_insert_self]
  · intro hrun rest
    rw [runReady]
    simp only [processCommands, List.headD_nil, List.tail_nil]
    rw [if_neg (by simp), if_neg (fun hc => hc hrun),
      dispatchTick_eq env s id bot hfind]

/-- Witness for C5: a failing tick on the concrete state gets the default
5000ms cooldown and keeps its agent. -/
theorem tick_outcome_handling_witness :
    alFind (dispatchTick envErr sS "a-1").cooldowns "a-1"
      = some (1000 + 200 + 50 + 5000) ∧
    alFind (dispatchTick envErr sS "a-1").bots "a-1" = some ⟨7, false⟩ :=
  ⟨((tick_outcome_handling envErr sS "a-1" ⟨7, false⟩ rfl).1 (Or.inr ⟨"boom", rfl⟩)).1,
   ((tick_outcome_handling envErr sS "a-1" ⟨7, false⟩ rfl).2.1 "boom" rfl).2⟩

/-- Witness for C3 (amended): the failing dispatch on the concrete state. -/
theorem status_writeback_on_failure_witness :
    flatInstances (dispatchTick envErr sS "a-1").entries
      = updateFirstD (fun i => i.id == "a-1")
          (fun i => { i with status := "", error := tickErrOf (envErr.tickRes "a-1") })
          (flatInstances sS.entries) ∧
    (dispatchTick envErr sS "a-1").entries.map entryShape
      = sS.entries.map entryShape :=
  status_writeback_on_failure envErr sS "a-1" ⟨7, false⟩ rfl
    (Or.inr ⟨"boom", rfl⟩)

/-! ## Lemmas toward the live-agent table invariant -/

theorem flipEnabled_getElem (idx : Nat) :
    ∀ l : List BotEntry,
      (flipEnabled idx l)[idx]?
        = (l[idx]?).map (fun e => { e with enabled := !e.enabled }) := by
  induction idx with
  | zero =>
      intro l
      cases l with
      | nil => rfl
      | cons e rest =>
          show ({ e with enabled := !e.enabled } :: rest)[0]? = _
          rw [List.getElem?_cons_zero, List.getElem?_cons_zero]
          rfl
  | succ n ih =>
      intro l
      cases l with
      | nil => rfl
      | cons e rest =>
          show (e :: flipEnabled n rest)[n + 1]? = _
          rw [List.getElem?_cons_succ, List.getElem?_cons_succ, ih rest]

theorem flipEnabled_mem (idx : Nat) :
    ∀ (l : List BotEntry) (b : BotEntry), b ∈ l →
      b ∈ flipEnabled idx l ∨
      (l[idx]? = some b ∧
        (flipEnabled idx l)[idx]? = some { b with enabled := !b.enabled }) := by
  induction idx with
  | zero =>
      intro l b hb
      cases l with
      | nil => cases hb
      | cons e rest =>
          rcases List.mem_cons.mp hb with rfl | hb2
          · refine Or.inr ⟨List.getElem?_cons_zero, ?_⟩
            show ({ b with enabled := !b.enabled } :: rest)[0]? = _
            exact List.getElem?_cons_zero
          · exact Or.inl (List.mem_cons_of_mem _ hb2)
  | succ n ih =>
      intro l b hb
      cases l with
      | nil => cases hb
      | cons e rest =>
          rcases List.mem_cons.mp hb with rfl | hb2
          · exact Or.inl (List.mem_cons_self _ _)
          · rcases ih rest b hb2 with hmem | ⟨hg, hg2⟩
            · exact Or.inl (List.mem_cons_of_mem _ hmem)
            · refine Or.inr ⟨?_, ?_⟩
              · rw [List.getElem?_cons_succ]
                exact hg
              · show (e :: flipEnabled n rest)[n + 1]? = _
                rw [List.getElem?_cons_succ]
                exact hg2

theorem foldl_orch_state {α : Type} (f : Orch → α → Orch)
    (hf : ∀ st x, (f st x).orch_state = st.orch_state) (l : List α) (st : Orch) :
    (l.foldl f st).orch_state = st.orch_state :=
  foldl_preserve (fun st2 => st2.orch_state = st.orch_state) f
    (fun st2 x h2 => (hf st2 x).trans h2) l st rfl

theorem foldl_entries {α : Type} (f : Orch → α → Orch)
    (hf : ∀ st x, (f st x).entries = st.entries) (l : List α) (st : Orch) :
    (l.foldl f st).entries = st.entries :=
  foldl_preserve (fun st2 => st2.entries = st.entries) f
    (fun st2 x h2 => (hf st2 x).trans h2) l st rfl

theorem toggleApply_frame (idx : Nat) (s : Orch) :
    (toggleApply idx s).orch_state = s.orch_state ∧
    (toggleApply idx s).entries = s.entries := by
  unfold Finger.toggleApply
  split
  · exact ⟨rfl, rfl⟩
  · split
    · constructor
      · refine foldl_orch_state _ (fun st i => ?_) _ s
        split
        · rfl
        · rfl
      · refine foldl_entries _ (fun st i => ?_) _ s
        split
        · rfl
        · rfl
    · split
      · exact ⟨foldl_orch_state _ (fun st i => (dropInstance_frame st i).1) _ s,
          foldl_entries _ (fun st i => (dropInstance_frame st i).2) _ s⟩
      · exact ⟨rfl, rfl⟩

theorem startRunning_frame (s : Orch) :
    (startRunning s).orch_state = s.orch_state ∧
    (startRunning s).entries = s.entries := by
  unfold Finger.startRunning
  constructor
  · refine foldl_orch_state _ (fun st e => ?_) _ s
    split
    · rfl
    · refine foldl_orch_state _ (fun st2 i => ?_) _ st
      split
      · rfl
      · rfl
  · refine foldl_entries _ (fun st e => ?_) _ s
    split
    · rfl
    · refine foldl_entries _ (fun st2 i => ?_) _ st
      split
      · rfl
      · rfl

theorem restartCmd_frame (idx : Nat) (s : Orch) :
    (restartCmd idx s).orch_state = s.orch_state ∧
    (restartCmd idx s).entries = s.entries := by
  unfold Finger.restartCmd
  split
  · exact ⟨rfl, rfl⟩
  · split
    · exact ⟨rfl, rfl⟩
    · split
      · exact ⟨rfl, rfl⟩
      · exact ⟨foldl_orch_state _
            (fun st i => ((createAgent_frame (dropInstance st i) i.id).1).trans
              (dropInstance_frame st i).1) _ s,
          foldl_entries _
            (fun st i => ((createAgent_frame (dropInstance st i) i.id).2.1).trans
              (dropInstance_frame st i).2) _ s⟩

theorem dispatchTick_frame (env : TickEnv) (s : Orch) (id : String) :
    (dispatchTick env s id).orch_state = s.orch_state := by
  unfold Finger.dispatchTick
  split
  · rfl
  · rfl

theorem reconcileAll_bots_empty (plat : Plat) (s : Orch) (h : s.bots = []) :
    (reconcileAll plat s).bots = [] := by
  rw [reconcileAll_eq]
  show (s.entries.foldl (reconDead plat) { s with entries := [] }).bots = []
  refine foldl_preserve (fun st : Orch => st.bots = []) _ (fun st e hst => ?_)
    s.entries { s with entries := [] } h
  unfold reconDead
  refine foldl_preserve (fun st2 : Orch => st2.bots = []) _ (fun st2 i hst2 => ?_)
    _ st hst
  show (stopAndRemove st2 i.id).bots = []
  unfold Finger.stopAndRemove
  cases hf : alFind st2.bots i.id with
  | none => exact hst2
  | some a =>
      rw [hst2] at hf
      cases hf

theorem dropFold_bots_empty (l : List Instance) (s : Orch) (h : s.bots = []) :
    (l.foldl dropInstance s).bots = [] := by
  refine foldl_preserve (fun st : Orch => st.bots = []) _ (fun st i hst => ?_) l s h
  show (stopAndRemove st i.id).bots = []
  unfold Finger.stopAndRemove
  cases hf : alFind st.bots i.id with
  | none => exact hst
  | some a =>
      rw [hst] at hf
      cases hf

/-- Survivors of a create-or-reset fold: already live before, or keyed by one
of the instances handed to the fold. -/
theorem createFold_find (l : List Instance) :
    ∀ (st : Orch) (id : String) (a : Agent),
      alFind ((l.foldl (fun st i =>
        if (alFind st.bots i.id).isSome then st else createAgent st i.id) st)).bots id
          = some a →
      alFind st.bots id = some a ∨ ∃ i ∈ l, i.id = id := by
  induction l with
  | nil => exact fun st id a h => Or.inl h
  | cons i l ih =>
      intro st id a h
      rcases ih _ id a h with hstep | ⟨j, hj, hjid⟩
      · have hstep2 : alFind (if (alFind st.bots i.id).isSome = true then st
            else createAgent st i.id).bots id = some a := hstep
        by_cases hf : (alFind st.bots i.id).isSome = true
        · rw [if_pos hf] at hstep2
          exact Or.inl hstep2
        · rw [if_neg hf] at hstep2
          by_cases hid : id = i.id
          · exact Or.inr ⟨i, List.mem_cons_self i l, hid.symm⟩
          · rw [show (createAgent st i.id).bots
                  = alInsert st.bots i.id ⟨st.next_aid, false⟩ from rfl,
              alFind_insert_ne _ _ _ _ hid] at hstep2
            exact Or.inl hstep2
      · exact Or.inr ⟨j, List.mem_cons_of_mem i hj, hjid⟩

/-- Survivors of a restart fold: already live before, or keyed by one of the
restarted instances. -/
theorem restartFold_find (l : List Instance) :
    ∀ (st : Orch) (id : String) (a : Agent),
      alFind ((l.foldl (fun st i => createAgent (dropInstance st i) i.id) st)).bots id
          = some a →
      alFind st.bots id = some a ∨ ∃ i ∈ l, i.id = id := by
  induction l with
  | nil => exact fun st id a h => Or.inl h
  | cons i l ih =>
      intro st id a h
      rcases ih _ id a h with hstep | ⟨j, hj, hjid⟩
      · by_cases hid : id = i.id
        · exact Or.inr ⟨i, List.mem_cons_self i l, hid.symm⟩
        · rw [show (createAgent (dropInstance st i) i.id).bots
                = alInsert (dropInstance st i).bots i.id
                    ⟨(dropInstance st i).next_aid, false⟩ from rfl,
            alFind_insert_ne _ _ _ _ hid] at hstep
          obtain ⟨hpre, _⟩ := dropFold_find [i] st id a (by simpa using hstep)
          exact Or.inl hpre
      · exact Or.inr ⟨j, List.mem_cons_of_mem i hj, hjid⟩

/-- Survivors of the start-up creation loop: already live before, or keyed by
an instance of an enabled entry. -/
theorem startFold_find (l : List BotEntry) :
    ∀ (st : Orch) (id : String) (a : Agent),
      alFind ((l.foldl (fun st e =>
        if !e.enabled then st
        else e.instances.foldl (fun st2 i =>
          if (alFind st2.bots i.id).isSome then st2
          else createAgent st2 i.id) st) st)).bots id = some a →
      alFind st.bots id = some a ∨
        ∃ e ∈ l, e.enabled = true ∧ ∃ i ∈ e.instances, i.id = id := by
  induction l with
  | nil => exact fun st id a h => Or.inl h
  | cons e l ih =>
      intro st id a h
      rcases ih _ id a h with hstep | ⟨e', he', hen, hi⟩
      · have hstep2 : alFind (if (!e.enabled) = true then st
            else e.instances.foldl (fun st2 i =>
              if (alFind st2.bots i.id).isSome = true then st2
              else createAgent st2 i.id) st).bots id = some a := hstep
        by_cases hne : (!e.enabled) = true
        · rw [if_pos hne] at hstep2
          exact Or.inl hstep2
        · rw [if_neg hne] at hstep2
          rcases createFold_find e.instances st id a hstep2 with hpre | ⟨i, hi, hiid⟩
          · exact Or.inl hpre
          · exact Or.inr ⟨e, List.mem_cons_self e l, by simpa using hne, ⟨i, hi, hiid⟩⟩
      · exact Or.inr ⟨e', List.mem_cons_of_mem e he', hen, hi⟩

theorem updateFirstD_map {α β : Type} (p : α → Bool) (f : α → α) (g : α → β)
    (hg : ∀ x, g (f x) = g x) :
    ∀ l : List α, (updateFirstD p f l).map g = l.map g := by
  intro l
  induction l with
  | nil => rfl
  | cons a l ih =>
      show List.map g (if p a then f a :: l else a :: updateFirstD p f l) = _
      by_cases hp : p a
      · rw [if_pos hp, List.map_cons, List.map_cons, hg a]
      · rw [if_neg hp, List.map_cons, List.map_cons, ih]

/-- Each registry entry keeps its enablement and its instance ids across a
status write-back. -/
theorem writeBack_entry_corr (id0 : String) (st er : Option String) :
    ∀ (es : List BotEntry) (e : BotEntry), e ∈ es →
      ∃ e' ∈ writeBack id0 st er es, e'.enabled = e.enabled ∧
        e'.instances.map (fun i => i.id) = e.instances.map (fun i => i.id) := by
  intro es
  induction es with
  | nil => intro e he; cases he
  | cons e0 es ih =>
      intro e he
      show ∃ e' ∈
        (if e0.instances.any (fun i => i.id == id0) then
          { e0 with instances := (updateFirstD (fun i => i.id == id0)
              (fun i => { i with status := st.getD "", error := er }) e0.instances) } :: es
         else e0 :: writeBack id0 st er es), _
      by_cases hc : e0.instances.any (fun i => i.id == id0)
      · rw [if_pos hc]
        rcases List.mem_cons.mp he with rfl | he2
        · refine ⟨_, List.mem_cons_self _ _, rfl, ?_⟩
          show (updateFirstD (fun i => i.id == id0)
              (fun i => { i with status := st.getD "", error := er }) e.instances).map
              (fun i => i.id) = _
          exact updateFirstD_map (fun i => i.id == id0)
            (fun i => { i with status := st.getD "", error := er })
            (fun i => i.id) (fun x => rfl) e.instances
        · exact ⟨e, List.mem_cons_of_mem _ he2, rfl, rfl⟩
      · rw [if_neg hc]
        rcases List.mem_cons.mp he with rfl | he2
        · exact ⟨e, List.mem_cons_self _ _, rfl, rfl⟩
        · obtain ⟨e', he', hen, hmap⟩ := ih e he2
          exact ⟨e', List.mem_cons_of_mem _ he', hen, hmap⟩

/-- An alive instance of an entry stays (as the same record) in the rescanned
entry. -/
theorem reconEntry_keeps (plat : Plat) (e : BotEntry) (i : Instance)
    (hi : i ∈ e.instances) (halive : aliveIn (plat e.window_pattern) i = true) :
    i ∈ (reconEntry plat e).instances := by
  have hkept : i ∈ keptInstances plat e := List.mem_filter.mpr ⟨hi, halive⟩
  obtain ⟨ext, hext⟩ :=
    discoverNew_prefix e.name (plat e.window_pattern) (keptInstances plat e)
  show i ∈ discoverNew e.name (plat e.window_pattern) (keptInstances plat e)
  rw [hext]
  exact List.mem_append.mpr (Or.inl hkept)

/-! ## The live-agent table invariant -/

/-- When `Stopped`, no agents are live. -/
def StoppedEmpty (s : Orch) : Prop :=
  s.orch_state = OrchestratorState.Stopped → s.bots = []

/-- Every live agent is keyed by an instance of an enabled entry. -/
def botOwned (s : Orch) : Prop :=
  ∀ id a, alFind s.bots id = some a →
    ∃ e ∈ s.entries, e.enabled = true ∧ ∃ i ∈ e.instances, i.id = id

theorem stoppedEmpty_stepClosed : StepClosed StoppedEmpty := by
  refine ⟨fun s ev hs => ?_, fun env s id hs => ?_, fun s n hs => hs⟩
  · obtain ⟨cmd, plat⟩ := ev
    cases cmd with
    | Quit => exact fun _ => rfl
    | Toggle idx =>
        show StoppedEmpty (toggleCmd plat idx s)
        intro hst
        have hos : (toggleCmd plat idx s).orch_state = s.orch_state := by
          unfold Finger.toggleCmd
          exact ((toggleApply_frame idx _).1).trans (reconcileAll_orch_state plat _)
        rw [hos] at hst
        have hb : s.bots = [] := hs hst
        unfold Finger.toggleCmd
        set s2 := reconcileAll plat { s with entries := flipEnabled idx s.entries } with hs2
        have hb2 : s2.bots = [] := reconcileAll_bots_empty plat _ hb
        have hos2 : s2.orch_state = OrchestratorState.Stopped := by
          rw [hs2, reconcileAll_orch_state]
          exact hst
        unfold Finger.toggleApply
        split
        · exact hb2
        · split
          · rename_i entry hcond
            exfalso
            rw [hos2] at hcond
            simp at hcond
          · split
            · exact dropFold_bots_empty _ _ hb2
            · exact hb2
    | StartStop =>
        show StoppedEmpty (startStopCmd s)
        unfold Finger.startStopCmd
        split
        · exact hs
        · intro hst
          cases hst
        · intro hst
          rw [(startRunning_frame _).1] at hst
          cases hst
    | Restart idx =>
        show StoppedEmpty (restartCmd idx s)
        intro hst
        rw [(restartCmd_frame idx s).1] at hst
        have hb := hs hst
        unfold Finger.restartCmd
        split
        · exact hb
        · rename_i h
          exfalso
          have hr := not_not.mp h
          rw [hst] at hr
          cases hr
  · intro hst
    rw [dispatchTick_frame env s id] at hst
    have hb := hs hst
    unfold Finger.dispatchTick
    split
    · exact hb
    · rename_i bot hfound
      exfalso
      rw [hb] at hfound
      simp [alFind] at hfound

/-- A survivor of the flip-and-rescan prefix of a toggle is justified in the
rescanned registry: either by an enabled entry, or only by the targeted
entry after it was flipped to disabled. -/
theorem toggle_justify (plat : Plat) (idx : Nat) (s : Orch) (hs : botOwned s)
    (id : String) (a : Agent)
    (hf : alFind (reconcileAll plat
      { s with entries := flipEnabled idx s.entries }).bots id = some a) :
    (∃ e' ∈ (reconcileAll plat
        { s with entries := flipEnabled idx s.entries }).entries,
      e'.enabled = true ∧ ∃ i' ∈ e'.instances, i'.id = id) ∨
    (∃ entry, (reconcileAll plat
        { s with entries := flipEnabled idx s.entries }).entries[idx]? = some entry ∧
      entry.enabled = false ∧ ∃ i' ∈ entry.instances, i'.id = id) := by
  obtain ⟨hfin, hdeadcond⟩ :=
    reconcileAll_find plat { s with entries := flipEnabled idx s.entries } id a hf
  obtain ⟨e0, he0, hen0, i0, hi0, hidd⟩ := hs id a hfin
  rcases flipEnabled_mem idx s.entries e0 he0 with hmem1 | ⟨hgs, hgflip⟩
  · by_cases halive : aliveIn (plat e0.window_pattern) i0 = true
    · left
      refine ⟨reconEntry plat e0, ?_, hen0, ⟨i0, reconEntry_keeps plat e0 i0 hi0 halive, hidd⟩⟩
      rw [reconcileAll_entries]
      exact List.mem_map.mpr ⟨e0, hmem1, rfl⟩
    · exact absurd hidd
        (hdeadcond e0 hmem1 i0 hi0 (eq_false_of_ne_true halive))
  · by_cases halive : aliveIn (plat e0.window_pattern) i0 = true
    · right
      refine ⟨reconEntry plat { e0 with enabled := !e0.enabled }, ?_, ?_, ?_⟩
      · rw [reconcileAll_entries, List.getElem?_map]
        show (flipEnabled idx s.entries)[idx]?.map (reconEntry plat) = _
        rw [hgflip]
        rfl
      · show (!e0.enabled) = false
        rw [hen0]
        rfl
      · exact ⟨i0, reconEntry_keeps plat _ i0 hi0 halive, hidd⟩
    · refine absurd hidd
        (hdeadcond { e0 with enabled := !e0.enabled } ?_ i0 hi0
          (eq_false_of_ne_true halive))
      exact List.getElem?_mem hgflip

theorem botOwned_stepClosed : StepClosed botOwned := by
  refine ⟨fun s ev hs => ?_, fun env s id hs => ?_, fun s n hs => hs⟩
  · obtain ⟨cmd, plat⟩ := ev
    cases cmd with
    | Quit =>
        intro id a hf
        simp [alFind] at hf
    | StartStop =>
        show botOwned (startStopCmd s)
        unfold Finger.startStopCmd
        split
        · exact hs
        · exact fun id a hf => hs id a hf
        · intro id a hf
          have hent : (startRunning
              { s with orch_state := OrchestratorState.Running }).entries
              = s.entries := (startRunning_frame _).2
          rw [hent]
          have hf2 : alFind (startRunning
              { s with orch_state := OrchestratorState.Running }).bots id = some a := hf
          unfold Finger.startRunning at hf2
          rcases startFold_find _ _ id a hf2 with hpre | ⟨e, he, hen, hi⟩
          · exact hs id a hpre
          · exact ⟨e, he, hen, hi⟩
    | Restart idx =>
        show botOwned (restartCmd idx s)
        unfold Finger.restartCmd
        by_cases hnr : s.orch_state ≠ OrchestratorState.Running
        · rw [if_pos hnr]
          exact hs
        · rw [if_neg hnr]
          cases heq : s.entries[idx]? with
          | none => exact hs
          | some entry =>
              show botOwned (if (!entry.enabled) = true then s
                else entry.instances.foldl
                  (fun st i => createAgent (dropInstance st i) i.id) s)
              by_cases hne : (!entry.enabled) = true
              · rw [if_pos hne]
                exact hs
              · rw [if_neg hne]
                intro id a hf
                have hent : ((entry.instances.foldl
                    (fun st i => createAgent (dropInstance st i) i.id)) s).entries
                    = s.entries :=
                  foldl_entries _
                    (fun st i => ((createAgent_frame (dropInstance st i) i.id).2.1).trans
                      (dropInstance_frame st i).2) _ s
                rw [hent]
                rcases restartFold_find entry.instances s id a hf with hpre | ⟨i, hi, hiid⟩
                · exact hs id a hpre
                · exact ⟨entry, List.getElem?_mem heq, by simpa using hne, ⟨i, hi, hiid⟩⟩
    | Toggle idx =>
        show botOwned (toggleCmd plat idx s)
        unfold Finger.toggleCmd Finger.toggleApply
        cases heq : (reconcileAll plat
            { s with entries := flipEnabled idx s.entries }).entries[idx]? with
        | none =>
            intro id a hf
            rcases toggle_justify plat idx s hs id a hf with hok | ⟨entry', heq', _, _⟩
            · exact hok
            · rw [heq] at heq'
              cases heq'
        | some entry =>
            show botOwned
              (if (entry.enabled && ((reconcileAll plat
                    { s with entries := flipEnabled idx s.entries }).orch_state
                  == OrchestratorState.Running)) = true then
                entry.instances.foldl (fun st i =>
                  if (alFind st.bots i.id).isSome = true then st
                  else createAgent st i.id)
                  (reconcileAll plat { s with entries := flipEnabled idx s.entries })
              else if (!entry.enabled) = true then
                entry.instances.foldl dropInstance
                  (reconcileAll plat { s with entries := flipEnabled idx s.entries })
              else reconcileAll plat { s with entries := flipEnabled idx s.entries })
            by_cases hcond : (entry.enabled && ((reconcileAll plat
                { s with entries := flipEnabled idx s.entries }).orch_state
                == OrchestratorState.Running)) = true
            · rw [if_pos hcond]
              intro id a hf
              have hent : ((entry.instances.foldl (fun st i =>
                  if (alFind st.bots i.id).isSome = true then st
                  else createAgent st i.id))
                  (reconcileAll plat { s with entries := flipEnabled idx s.entries })).entries
                  = (reconcileAll plat
                      { s with entries := flipEnabled idx s.entries }).entries := by
                refine foldl_entries _ (fun st i => ?_) _ _
                split
                · rfl
                · rfl
              rw [hent]
              rcases createFold_find entry.instances _ id a hf with hpre | ⟨i, hi, hiid⟩
              · rcases toggle_justify plat idx s hs id a hpre
                  with hok | ⟨entry', heq', hen', _⟩
                · exact hok
                · rw [heq] at heq'
                  cases heq'
                  rw [((Bool.and_eq_true _ _).mp hcond).1] at hen'
                  cases hen'
              · exact ⟨entry, List.getElem?_mem heq,
                  ((Bool.and_eq_true _ _).mp hcond).1, ⟨i, hi, hiid⟩⟩
            · rw [if_neg hcond]
              by_cases hdis : (!entry.enabled) = true
              · rw [if_pos hdis]
                intro id a hf
                have hent : ((entry.instances.foldl dropInstance)
                    (reconcileAll plat
                      { s with entries := flipEnabled idx s.entries })).entries
                    = (reconcileAll plat
                        { s with entries := flipEnabled idx s.entries }).entries :=
                  foldl_entries _ (fun st i => (dropInstance_frame st i).2) _ _
                rw [hent]
                obtain ⟨hpre, hdead⟩ := dropFold_find entry.instances _ id a hf
                rcases toggle_justify plat idx s hs id a hpre
                  with hok | ⟨entry', heq', _, i', hi', hiid'⟩
                · exact hok
                · rw [heq] at heq'
                  cases heq'
                  exact absurd hiid' (hdead i' hi')
              · rw [if_neg hdis]
                intro id a hf
                rcases toggle_justify plat idx s hs id a hf
                  with hok | ⟨entry', heq', hen', _⟩
                · exact hok
                · rw [heq] at heq'
                  cases heq'
                  have hent : entry.enabled = true := by
                    cases hentb : entry.enabled with
                    | true => rfl
                    | false => exact absurd (by rw [hentb]; rfl) hdis
                  rw [hent] at hen'
                  cases hen'
  · intro id' a' hf
    revert hf
    unfold Finger.dispatchTick
    split
    · exact fun hf => hs id' a' hf
    · rename_i bot hfound
      intro hf
      have hj : ∃ e ∈ s.entries, e.enabled = true ∧ ∃ i ∈ e.instances, i.id = id' := by
        by_cases hid : id' = id
        · subst hid
          exact hs id' bot hfound
        · have hf2 : alFind (alInsert s.bots id { bot with active := false }) id'
              = some a' := hf
          rw [alFind_insert_ne _ _ _ _ hid] at hf2
          exact hs id' a' hf2
      obtain ⟨e, he, hen, i, hi, hiid⟩ := hj
      obtain ⟨e', he', hen', hmap⟩ := writeBack_entry_corr id _ _ s.entries e he
      refine ⟨e', he', hen'.trans hen, ?_⟩
      have hidmem : id' ∈ e'.instances.map (fun i => i.id) := by
        rw [hmap]
        exact List.mem_map.mpr ⟨i, hi, hiid⟩
      obtain ⟨i', hi', hiid'⟩ := List.mem_map.mp hidmem
      exact ⟨i', hi', hiid'⟩

theorem StepClosed.and {P Q : Orch → Prop} (hp : StepClosed P) (hq : StepClosed Q) :
    StepClosed (fun s => P s ∧ Q s) :=
  ⟨fun s ev h => ⟨hp.event s ev h.1, hq.event s ev h.2⟩,
   fun env s id h => ⟨hp.tick env s id h.1, hq.tick env s id h.2⟩,
   fun s n h => ⟨hp.time s n h.1, hq.time s n h.2⟩⟩

/-- The amended live-agent table invariant: at most one agent per instance
id, no agents while `Stopped`, and every agent keyed by an instance of an
enabled entry. -/
def AgentInv (s : Orch) : Prop :=
  NoDupKeys s.bots ∧ StoppedEmpty s ∧ botOwned s

theorem agentInv_stepClosed : StepClosed AgentInv :=
  (nodupKeys_botsClosed.stepClosed).and (stoppedEmpty_stepClosed.and botOwned_stepClosed)

/-! ## Claim theorems: the live-agent table -/

/-- The second bot entry, matching no windows in the scenarios below. -/
def entB : BotEntry :=
  { name := "b", window_pattern := "pb", description := "", enabled := false,
    instances := [], error := none, script_path := "" }

/-- Entry "a" before any window exists. -/
def entA : BotEntry :=
  { name := "a", window_pattern := "pa", description := "", enabled := false,
    instances := [], error := none, script_path := "" }

/-- The initial orchestrator state of the counterexample run. -/
def s0 : Orch :=
  { entries := [entA, entB], orch_state := OrchestratorState.Stopped,
    bots := [], cooldowns := [], next_aid := 0, stop_log := [], now := 0 }

/-- Enable entry "a" (no windows yet), start the orchestrator, then toggle
entry "b" while a window for "a" has appeared: the rescan discovers instance
"a-1" but only the toggled entry "b" gets agents. -/
def toggleScenario : List Event :=
  [⟨Command.Toggle 0, platNone⟩, ⟨Command.StartStop, platNone⟩,
   ⟨Command.Toggle 1, platW⟩]

/-- C2 counterexample: after the scenario's command-processing passes have
completed, entry "a" is enabled, the run state is `Running`, and instance
"a-1" exists in the registry — yet no live agent exists for "a-1", and a
further (empty) command-processing pass changes nothing, so the claimed
"agent exists iff enabled and Running" biconditional never converges. -/
theorem agent_iff_counterexample :
    (processCommands s0 toggleScenario).1.orch_state = OrchestratorState.Running ∧
    (∃ e ∈ (processCommands s0 toggleScenario).1.entries,
      e.enabled = true ∧ ∃ i ∈ e.instances, i.id = "a-1") ∧
    alFind (processCommands s0 toggleScenario).1.bots "a-1" = none ∧
    (processCommands (processCommands s0 toggleScenario).1 []).1
      = (processCommands s0 toggleScenario).1 := by
  decide

/-- C2 (amended): the live-agent table keeps at most one agent per instance
id (so toggling an entry off and on never leaves two agents for the same
id), holds no agents when the run state is `Stopped`, and every live agent
belongs to a current instance of an enabled entry — and this invariant is
preserved by every command-processing pass and every scheduler iteration.
The converse direction of the original claim (every enabled entry's instance
has an agent while `Running`) does not hold. -/
theorem agent_table_invariant :
    (∀ (s : Orch) (evs : List Event),
      AgentInv s → AgentInv (processCommands s evs).1) ∧
    (∀ (env : TickEnv) (evs : List Event) (pend : List (List Event)) (s s' : Orch),
      orchIteration env evs pend s = some s' → AgentInv s → AgentInv s') :=
  ⟨fun s evs h => agentInv_stepClosed.processPass evs s h,
   fun env evs pend s s' hit h => agentInv_stepClosed.iteration env evs pend s s' hit h⟩

/-- The concrete running state satisfies the invariant. -/
theorem agentInv_sW : AgentInv sW := by
  refine ⟨show (sW.bots.map Prod.fst).Nodup by decide,
    fun h => absurd h (by decide), ?_⟩
  intro id a hf
  rw [show sW.bots = [("a-1", ⟨7, false⟩)] from rfl, alFind_cons] at hf
  by_cases h : "a-1" = id
  · refine ⟨entW, List.mem_cons_self _ _, rfl,
      ⟨Instance.new "a" 1 "w", List.mem_cons_self _ _, ?_⟩⟩
    rw [← h]
    decide
  · rw [if_neg h] at hf
    exact absurd hf (by simp [alFind])

/-- Witness for C2 (amended): the invariant carried through a concrete
toggle pass on a state with one live agent. -/
theorem agent_table_invariant_witness :
    AgentInv (processCommands sW [⟨Command.Toggle 0, platW⟩]).1 :=
  agent_table_invariant.1 sW [⟨Command.Toggle 0, platW⟩] agentInv_sW

/-! ## Agent accounting: every stopped agent is logged -/

/-- An agent is accounted for: still live under its id, or its VM has been
stopped. -/
def Accounted (id : String) (a : Agent) (s : Orch) : Prop :=
  alFind s.bots id = some a ∨ a.aid ∈ s.stop_log

theorem alFind_mem_snd {β : Type} :
    ∀ (m : List (String × β)) (id : String) (a : β),
      alFind m id = some a → ∃ kv ∈ m, kv.2 = a := by
  intro m
  induction m with
  | nil => intro id a h; cases h
  | cons kv m ih =>
      intro id a h
      rw [alFind_cons] at h
      by_cases hk : kv.1 = id
      · rw [if_pos hk] at h
        exact ⟨kv, List.mem_cons_self _ _, Option.some.inj h⟩
      · rw [if_neg hk] at h
        obtain ⟨kv2, hm, he⟩ := ih id a h
        exact ⟨kv2, List.mem_cons_of_mem _ hm, he⟩

theorem accounted_stopAndRemove (id : String) (a : Agent) (st : Orch) (k : String)
    (h : Accounted id a st) : Accounted id a (stopAndRemove st k) := by
  unfold Finger.stopAndRemove
  rcases h with hfind | hlog
  · by_cases hk : id = k
    · subst hk
      rw [hfind]
      right
      show a.aid ∈ st.stop_log ++ [a.aid]
      exact List.mem_append.mpr (Or.inr (List.mem_cons_self _ _))
    · cases hf : alFind st.bots k with
      | none => exact Or.inl hfind
      | some b =>
          left
          show alFind (alErase st.bots k) id = some a
          rw [alFind_erase_ne st.bots k id hk]
          exact hfind
  · cases hf : alFind st.bots k with
    | none => exact Or.inr hlog
    | some b =>
        right
        show a.aid ∈ st.stop_log ++ [b.aid]
        exact List.mem_append.mpr (Or.inl hlog)

theorem accounted_dropInstance (id : String) (a : Agent) (st : Orch) (i : Instance)
    (h : Accounted id a st) : Accounted id a (dropInstance st i) :=
  accounted_stopAndRemove id a st i.id h

theorem accounted_createAgent (id : String) (a : Agent) (st : Orch) (k : String)
    (hnone : alFind st.bots k = none) (h : Accounted id a st) :
    Accounted id a (createAgent st k) := by
  rcases h with hfind | hlog
  · left
    show alFind (alInsert st.bots k ⟨st.next_aid, false⟩) id = some a
    have hk : id ≠ k := by
      intro he
      rw [he, hnone] at hfind
      cases hfind
    rw [alFind_insert_ne _ _ _ _ hk]
    exact hfind
  · exact Or.inr hlog

theorem dropInstance_self_none (st : Orch) (i : Instance) :
    alFind (dropInstance st i).bots i.id = none := by
  unfold Finger.dropInstance Finger.stopAndRemove
  cases hf : alFind st.bots i.id with
  | none => exact hf
  | some b =>
      show alFind (alErase st.bots i.id) i.id = none
      exact alFind_erase_self st.bots i.id

theorem accounted_stopAllBots (id : String) (a : Agent) (s : Orch)
    (h : Accounted id a s) : Accounted id a (stopAllBots s) := by
  rcases h with hfind | hlog
  · right
    show a.aid ∈ s.stop_log ++ s.bots.map (fun kv => kv.2.aid)
    obtain ⟨kv, hm, he⟩ := alFind_mem_snd s.bots id a hfind
    exact List.mem_append.mpr (Or.inr (List.mem_map.mpr ⟨kv, hm, by rw [he]⟩))
  · right
    show a.aid ∈ s.stop_log ++ s.bots.map (fun kv => kv.2.aid)
    exact List.mem_append.mpr (Or.inl hlog)

theorem accounted_event (id : String) (a : Agent) :
    ∀ (s : Orch) (ev : Event), Accounted id a s → Accounted id a (applyEvent s ev).1 := by
  intro s ev h
  obtain ⟨cmd, plat⟩ := ev
  cases cmd with
  | Quit => exact accounted_stopAllBots id a s h
  | StartStop =>
      show Accounted id a (startStopCmd s)
      unfold Finger.startStopCmd
      split
      · exact h
      · exact h
      · show Accounted id a (startRunning _)
        unfold Finger.startRunning
        refine foldl_preserve (Accounted id a) _ (fun st e hst => ?_) _ _ h
        split
        · exact hst
        · refine foldl_preserve (Accounted id a) _ (fun st2 i hst2 => ?_) _ st hst
          split
          · exact hst2
          · rename_i hns
            exact accounted_createAgent id a st2 i.id
              (Option.not_isSome_iff_eq_none.mp hns) hst2
  | Restart idx =>
      show Accounted id a (restartCmd idx s)
      unfold Finger.restartCmd
      split
      · exact h
      · split
        · exact h
        · split
          · exact h
          · refine foldl_preserve (Accounted id a) _ (fun st i hst => ?_) _ s h
            exact accounted_createAgent id a (dropInstance st i) i.id
              (dropInstance_self_none st i) (accounted_dropInstance id a st i hst)
  | Toggle idx =>
      show Accounted id a (toggleCmd plat idx s)
      unfold Finger.toggleCmd
      have h2 : Accounted id a (reconcileAll plat
          { s with entries := flipEnabled idx s.entries }) := by
        rw [reconcileAll_eq]
        exact foldl_preserve (Accounted id a) (reconDead plat)
          (fun st e hst => by
            unfold reconDead
            exact foldl_preserve (Accounted id a) _
              (fun st2 i hst2 => accounted_dropInstance id a st2 i hst2) _ st hst)
          _ _ h
      show Accounted id a (toggleApply idx _)
      unfold Finger.toggleApply
      split
      · exact h2
      · split
        · refine foldl_preserve (Accounted id a) _ (fun st i hst => ?_) _ _ h2
          split
          · exact hst
          · rename_i hns
            exact accounted_createAgent id a st i.id
              (Option.not_isSome_iff_eq_none.mp hns) hst
        · split
          · exact foldl_preserve (Accounted id a) _
              (fun st i hst => accounted_dropInstance id a st i hst) _ _ h2
          · exact h2

theorem accounted_processPass (id : String) (a : Agent) :
    ∀ (evs : List Event) (s : Orch),
      Accounted id a s → Accounted id a (processCommands s evs).1 := by
  intro evs
  induction evs with
  | nil => exact fun s hs => hs
  | cons ev rest ih =>
      intro s hs
      by_cases hr : (applyEvent s ev).2
      · simpa [processCommands, hr] using ih (applyEvent s ev).1 (accounted_event id a s ev hs)
      · simpa [processCommands, hr] using accounted_event id a s ev hs

/-! ## Claim theorems: Quit -/

/-- Once a `Quit` sits in the drained batch, commands queued after it are
never processed. -/
theorem processCommands_append :
    ∀ (evs post : List Event) (s : Orch), (∃ ev ∈ evs, ev.cmd = Command.Quit) →
      processCommands s (evs ++ post) = processCommands s evs := by
  intro evs
  induction evs with
  | nil =>
      intro post s h
      obtain ⟨ev, hm, _⟩ := h
      cases hm
  | cons ev rest ih =>
      intro post s h
      obtain ⟨c, plat⟩ := ev
      cases c with
      | Quit => rfl
      | Toggle idx =>
          refine ih post (toggleCmd plat idx s) ?_
          obtain ⟨ev2, hm, hcq⟩ := h
          rcases List.mem_cons.mp hm with rfl | hm2
          · cases hcq
          · exact ⟨ev2, hm2, hcq⟩
      | StartStop =>
          refine ih post (startStopCmd s) ?_
          obtain ⟨ev2, hm, hcq⟩ := h
          rcases List.mem_cons.mp hm with rfl | hm2
          · cases hcq
          · exact ⟨ev2, hm2, hcq⟩
      | Restart idx =>
          refine ih post (restartCmd idx s) ?_
          obtain ⟨ev2, hm, hcq⟩ := h
          rcases List.mem_cons.mp hm with rfl | hm2
          · cases hcq
          · exact ⟨ev2, hm2, hcq⟩

/-- The registry/state fields after a drained batch containing `Quit`. -/
theorem processCommands_quit :
    ∀ (evs : List Event) (s : Orch), (∃ ev ∈ evs, ev.cmd = Command.Quit) →
      (processCommands s evs).2 = false ∧
      (processCommands s evs).1.bots = [] ∧
      (processCommands s evs).1.cooldowns = [] ∧
      (processCommands s evs).1.orch_state = OrchestratorState.Stopped := by
  intro evs
  induction evs with
  | nil =>
      intro s h
      obtain ⟨ev, hm, _⟩ := h
      cases hm
  | cons ev rest ih =>
      intro s h
      obtain ⟨c, plat⟩ := ev
      cases c with
      | Quit => exact ⟨rfl, rfl, rfl, rfl⟩
      | Toggle idx =>
          refine ih (toggleCmd plat idx s) ?_
          obtain ⟨ev2, hm, hcq⟩ := h
          rcases List.mem_cons.mp hm with rfl | hm2
          · cases hcq
          · exact ⟨ev2, hm2, hcq⟩
      | StartStop =>
          refine ih (startStopCmd s) ?_
          obtain ⟨ev2, hm, hcq⟩ := h
          rcases List.mem_cons.mp hm with rfl | hm2
          · cases hcq
          · exact ⟨ev2, hm2, hcq⟩
      | Restart idx =>
          refine ih (restartCmd idx s) ?_
          obtain ⟨ev2, hm, hcq⟩ := h
          rcases List.mem_cons.mp hm with rfl | hm2
          · cases hcq
          · exact ⟨ev2, hm2, hcq⟩

/-- C4: after a drained batch containing `Quit`, every agent that was live
has been stopped (its VM id is in the stop log), the live-agent table and
cooldown table are empty, the run state is `Stopped`, `process_commands`
reports termination, the main loop iteration returns (no tick is
dispatched), and commands queued after the `Quit` are never processed. -/
theorem quit_postcondition (s : Orch) (evs : List Event)
    (hq : ∃ ev ∈ evs, ev.cmd = Command.Quit) :
    (processCommands s evs).2 = false ∧
    (processCommands s evs).1.bots = [] ∧
    (processCommands s evs).1.cooldowns = [] ∧
    (processCommands s evs).1.orch_state = OrchestratorState.Stopped ∧
    (∀ id a, alFind s.bots id = some a →
      a.aid ∈ (processCommands s evs).1.stop_log) ∧
    (∀ (env : TickEnv) (pend : List (List Event)),
      orchIteration env evs pend s = none) ∧
    (∀ post : List Event, processCommands s (evs ++ post) = processCommands s evs) := by
  obtain ⟨h2, hb, hc, ho⟩ := processCommands_quit evs s hq
  refine ⟨h2, hb, hc, ho, ?_, ?_, ?_⟩
  · intro id a hf
    rcases accounted_processPass id a evs s (Or.inl hf) with hfind | hlog
    · rw [hb] at hfind
      simp [alFind] at hfind
    · exact hlog
  · intro env pend
    unfold Finger.orchIteration
    rw [if_pos h2]
  · exact fun post => processCommands_append evs post s hq

/-- Witness for C4: quitting the concrete running state stops its one live
agent (VM id 7). -/
theorem quit_postcondition_witness :
    (processCommands sW [⟨Command.Quit, platNone⟩]).2 = false ∧
    (processCommands sW [⟨Command.Quit, platNone⟩]).1.bots = [] ∧
    (processCommands sW [⟨Command.Quit, platNone⟩]).1.cooldowns = [] ∧
    (processCommands sW [⟨Command.Quit, platNone⟩]).1.orch_state
      = OrchestratorState.Stopped ∧
    (∀ id a, alFind sW.bots id = some a →
      a.aid ∈ (processCommands sW [⟨Command.Quit, platNone⟩]).1.stop_log) ∧
    (∀ (env : TickEnv) (pend : List (List Event)),
      orchIteration env [⟨Command.Quit, platNone⟩] pend sW = none) ∧
    (∀ post : List Event,
      processCommands sW ([⟨Command.Quit, platNone⟩] ++ post)
        = processCommands sW [⟨Command.Quit, platNone⟩]) :=
  quit_postcondition sW [⟨Command.Quit, platNone⟩]
    ⟨⟨Command.Quit, platNone⟩, List.mem_cons_self _ _, rfl⟩

/-! ## Claim theorems: active-flag gating -/

/-- C8 counterexample: in the finger-core runtime variant the window
operation executes even though no activity authorization exists — its
`LuaWindow` stores no active flag and never drops a call. -/
theorem active_gating_counterexample :
    fingerCoreLuaWindowCall false (WinOp.tap "x") = some (WinOp.tap "x") ∧
    fingerCoreLuaWindowCall false (WinOp.tap "x") ≠ none :=
  ⟨rfl, by decide⟩

/-- C8 (amended): in the core runtime (`crates/core/src/lua_rt.rs`) every
window-affecting call made while the active flag is false is dropped, and
the orchestrator leaves every live agent's flag false across whole
command-processing passes and whole scheduler iterations (agents are created
inactive and each dispatch resets the flag), so window-affecting calls
issued outside a tick dispatch are dropped; the finger-core runtime variant
has no such gate. -/
theorem active_flag_gating :
    (∀ op : WinOp, luaWindowCall false op = none) ∧
    (∀ (s : Orch) (evs : List Event),
      AllInactive s.bots → AllInactive (processCommands s evs).1.bots) ∧
    (∀ (env : TickEnv) (evs : List Event) (pend : List (List Event)) (s s' : Orch),
      orchIteration env evs pend s = some s' →
      AllInactive s.bots → AllInactive s'.bots) :=
  ⟨fun _ => rfl,
   fun s evs h => allInactive_botsClosed.stepClosed.processPass evs s h,
   fun env evs pend s s' hit h =>
     allInactive_botsClosed.stepClosed.iteration env evs pend s s' hit h⟩

/-- The concrete running state's one agent is inactive. -/
theorem allInactive_sW : AllInactive sW.bots := by
  intro id a hf
  rw [show sW.bots = [("a-1", ⟨7, false⟩)] from rfl, alFind_cons] at hf
  by_cases h : ("a-1" : String) = id
  · rw [if_pos h] at hf
    rw [← Option.some.inj hf]
  · rw [if_neg h] at hf
    exact absurd hf (by simp [alFind])

/-- Witness for C8 (amended): the gate drops a concrete call, and inactivity
survives a concrete toggle pass. -/
theorem active_flag_gating_witness :
    luaWindowCall false WinOp.decodev2 = none ∧
    AllInactive (processCommands sW [⟨Command.Toggle 0, platW⟩]).1.bots :=
  ⟨active_flag_gating.1 WinOp.decodev2,
   active_flag_gating.2.1 sW [⟨Command.Toggle 0, platW⟩] allInactive_sW⟩

end Finger
